import Mathlib

/-!
# Worker pool (`internal/workerpool/pool.go`)

A shallow embedding of the dynamic worker pool: the pool object, the goroutines it
starts and the calls that are in flight form one state, and every atomic step of the
source (a call under the mutex, one resolution of a `select`, a channel operation, a
step of `Shutdown`) is a function on that state.  Where Go leaves a choice open (which
ready case of a `select` is taken, which goroutine moves next) the choice is an
argument, so that every schedule is a list of actions.

Log lines are not part of the state, except the line a worker prints for each item it
processes.  A panic ends the program: no step follows it, and callers that recover from
a panic are not part of the model.
-/

namespace WorkerPool

/-! ## Go integers -/

/-- Largest value of Go's `int` on a 64-bit target (on a 32-bit target the same wrap
happens at 2^31 - 1). -/
def maxInt : Int := 9223372036854775807

/-- Smallest value of Go's `int` on a 64-bit target. -/
def minInt : Int := -9223372036854775808

/-- Go `int` arithmetic wraps around: a result is reduced to the 64-bit two's
complement range. -/
def wrapInt (x : Int) : Int :=
  (x + 9223372036854775808) % 18446744073709551616 - 9223372036854775808

/-- Largest value of the counter of a `sync.WaitGroup`, which is kept in 32 bits:
`Add` panics (negative WaitGroup counter) when the counter would pass it. -/
def maxWaitGroup : Nat := 2147483647

/-! ## State -/

/-- Where a `worker` goroutine stands: at the `select` of its loop, between the receive
of an item and the next iteration (`Printf` done, `Sleep` running), or returned. -/
inductive PC where
  | selecting
  | processing (data : String)
  | stopped
deriving DecidableEq, Repr

/-- One execution of `wp.worker(ctx, id)`; `ctx` names the scope derived for it. -/
structure Goroutine where
  ctx : Nat
  id : Int
  pc : PC
deriving DecidableEq, Repr

/-- Where a call of `Shutdown` stands: `rootCancel()` done and `close` next,
`close` done and blocked in `wg.Wait()`, or returned. -/
inductive ShutdownPC where
  | closing
  | waiting
  | returned
deriving DecidableEq, Repr

/-- The pool and its environment.

* `inputChan`, `cap`, `closed`: the buffer of `inputChan`, its capacity, whether it was closed;
* `workers`: the map `workers`, as an association list from identity to cancel handle
  (the name of the scope the handle cancels);
* `workerIDCounter`, `wg`: as in the source (`wg` is the counter of the wait group);
* `rootDone`: `rootCancel` was called; `cancelled`: the handles that were fired;
* `goroutines`: every worker execution started so far, in start order;
* `senders`: the payloads of the `SendWork` calls blocked in the send of the `default` branch;
* `shutdowns`: the calls of `Shutdown` made so far;
* `output`: the lines printed by workers, as (identity, item);
* `panicked`: a goroutine panicked (the program is gone). -/
structure State where
  inputChan : List String
  cap : Nat
  closed : Bool
  workers : List (Int × Nat)
  workerIDCounter : Int
  wg : Nat
  rootDone : Bool
  cancelled : List Nat
  goroutines : List Goroutine
  senders : List String
  shutdowns : List ShutdownPC
  output : List (Int × String)
  panicked : Bool
deriving DecidableEq, Repr

/-- The keys of the map `workers`. -/
def keys (s : State) : List Int := s.workers.map Prod.fst

/-- Go's `delete(m, k)`. -/
def mapDelete (m : List (Int × Nat)) (k : Int) : List (Int × Nat) :=
  m.filter (fun e => e.1 != k)

/-- Go's `m[k] = v`: the entry of `k`, if any, is replaced. -/
def mapStore (m : List (Int × Nat)) (k : Int) (v : Nat) : List (Int × Nat) :=
  (k, v) :: mapDelete m k

/-- `ctx.Done()` is ready for the scope named `h`: its own handle was fired, or the root
scope it derives from was cancelled. -/
def ctxDone (s : State) (h : Nat) : Bool :=
  s.rootDone || s.cancelled.contains h

/-- A worker execution that has not returned. -/
def live (g : Goroutine) : Bool := g.pc != PC.stopped

/-! ## Operations -/

/-- The pool `NewWorkerPool` builds: an empty channel of the given capacity, an empty
map, counter 0, no worker started, root scope not cancelled. -/
def emptyPool (capacity : Nat) : State :=
  { inputChan := []
    cap := capacity
    closed := false
    workers := []
    workerIDCounter := 0
    wg := 0
    rootDone := false
    cancelled := []
    goroutines := []
    senders := []
    shutdowns := []
    output := []
    panicked := false }

/-- `NewWorkerPool(bufferSize)`; `make(chan string, bufferSize)` panics on a negative
size, in which case there is no pool. -/
def NewWorkerPool (bufferSize : Int) : Option State :=
  if bufferSize < 0 then none else some (emptyPool bufferSize.toNat)

/-- `AddWorker()`, one atomic step (the whole body runs under `mu`); the result is the
identity returned and the pool afterwards.  The scope derived by
`context.WithCancel(wp.rootCtx)` gets the next free name, the number of scopes derived so
far (one per goroutine started).  `none` when `wp.wg.Add(1)` panics, which it does with
`maxWaitGroup` workers outstanding: the call returns nothing and no worker is started. -/
def AddWorker (s : State) : Option (Int × State) :=
  let workerID := wrapInt (s.workerIDCounter + 1)
  let cancel := s.goroutines.length
  if maxWaitGroup ≤ s.wg then none
  else some (workerID,
    { s with
      workerIDCounter := workerID
      workers := mapStore s.workers workerID cancel
      wg := s.wg + 1
      goroutines := s.goroutines ++ [{ ctx := cancel, id := workerID, pc := PC.selecting }] })

/-- `RemoveWorker(workerID)`, one atomic step (the whole body runs under `mu`). -/
def RemoveWorker (s : State) (workerID : Int) : Bool × State :=
  match s.workers.lookup workerID with
  | some cancelFunc =>
    (true,
      { s with
        cancelled := cancelFunc :: s.cancelled
        workers := mapDelete s.workers workerID })
  | none => (false, s)

/-- The three cases of the `select` in `SendWork`. -/
inductive SelectCase where
  | send
  | done
  | dflt
deriving DecidableEq, Repr

/-- The `select` of `SendWork(data)` resolved to `pick`; `none` when Go cannot take that
case in this state.  A send on a closed channel is ready and panics; the `default`
case is taken only when no other case is ready, and then the call blocks in
`wp.inputChan <- data` (it joins `senders`).  The send to a worker that already waits
in its `select` is the step `deliver`; whether a worker at its `select` already waits is
not recorded, so with a full buffer both that step and the `default` case are allowed. -/
def SendWork (s : State) (data : String) (pick : SelectCase) : Option State :=
  match pick with
  | SelectCase.send =>
    if s.closed then some { s with panicked := true }
    else if s.inputChan.length < s.cap then
      some { s with inputChan := s.inputChan ++ [data] }
    else none
  | SelectCase.done => if s.rootDone then some s else none
  | SelectCase.dflt =>
    if s.closed || decide (s.inputChan.length < s.cap) || s.rootDone then none
    else some { s with senders := s.senders ++ [data] }

/-- The blocked send `wp.inputChan <- data` of the `default` branch, for the `k`-th
blocked caller: it panics once the channel is closed, completes when the buffer has
room, and is not enabled otherwise. -/
def SendWorkFallback (s : State) (k : Nat) : Option State :=
  match s.senders[k]? with
  | none => none
  | some data =>
    if s.closed then some { s with panicked := true }
    else if s.inputChan.length < s.cap then
      some { s with inputChan := s.inputChan ++ [data], senders := s.senders.eraseIdx k }
    else none

/-- A sender hands `data` directly to goroutine `i`, which waits in its `select` on an
empty, open channel (the only way an item moves when the capacity is 0). -/
def deliver (s : State) (data : String) (i : Nat) : Option State :=
  if s.closed || !s.inputChan.isEmpty then none
  else
    match s.goroutines[i]? with
    | none => none
    | some g =>
      if g.pc = PC.selecting then
        some { s with
          goroutines := s.goroutines.set i { g with pc := PC.processing data }
          output := s.output ++ [(g.id, data)] }
      else none

/-- Direct handoff from the `k`-th blocked `SendWork` call to goroutine `i`. -/
def SendWorkFallbackDirect (s : State) (k i : Nat) : Option State :=
  match s.senders[k]? with
  | none => none
  | some data => (deliver s data i).map (fun t => { t with senders := t.senders.eraseIdx k })

/-- The two cases of the `select` in `worker`. -/
inductive WorkerCase where
  | recv
  | done
deriving DecidableEq, Repr

/-- Return of goroutine `i` with the deferred `wp.wg.Done()` (which panics on a
counter that would go negative). -/
def workerExit (s : State) (i : Nat) (g : Goroutine) : State :=
  if s.wg = 0 then { s with panicked := true }
  else
    { s with
      wg := s.wg - 1
      goroutines := s.goroutines.set i { g with pc := PC.stopped } }

/-- One step of `worker(ctx, id)` for goroutine `i`.  At the `select`, `pick` is the case
taken: the receive is ready when the buffer holds an item (the item is printed and the
goroutine sleeps) or when the channel is closed and empty (return); the `ctx.Done()`
case is ready when the scope is cancelled (return).  A goroutine that processes an item
goes back to the `select`. -/
def worker (s : State) (i : Nat) (pick : WorkerCase) : Option State :=
  match s.goroutines[i]? with
  | none => none
  | some g =>
    match g.pc with
    | PC.stopped => none
    | PC.processing _ =>
      some { s with goroutines := s.goroutines.set i { g with pc := PC.selecting } }
    | PC.selecting =>
      match pick with
      | WorkerCase.done => if ctxDone s g.ctx then some (workerExit s i g) else none
      | WorkerCase.recv =>
        match s.inputChan with
        | data :: rest =>
          some { s with
            inputChan := rest
            goroutines := s.goroutines.set i { g with pc := PC.processing data }
            output := s.output ++ [(g.id, data)] }
        | [] => if s.closed then some (workerExit s i g) else none

/-- First step of `Shutdown()`: `wp.rootCancel()`; the call is now in flight. -/
def ShutdownCancel (s : State) : State :=
  { s with rootDone := true, shutdowns := s.shutdowns ++ [ShutdownPC.closing] }

/-- Second step of the `j`-th `Shutdown()` call: `close(wp.inputChan)`, which panics on a
closed channel. -/
def ShutdownClose (s : State) (j : Nat) : Option State :=
  match s.shutdowns[j]? with
  | some ShutdownPC.closing =>
    if s.closed then some { s with panicked := true }
    else some { s with closed := true, shutdowns := s.shutdowns.set j ShutdownPC.waiting }
  | _ => none

/-- Last step of the `j`-th `Shutdown()` call: `wp.wg.Wait()` returns, which it does only
on a zero counter. -/
def ShutdownWait (s : State) (j : Nat) : Option State :=
  match s.shutdowns[j]? with
  | some ShutdownPC.waiting =>
    if s.wg = 0 then some { s with shutdowns := s.shutdowns.set j ShutdownPC.returned }
    else none
  | _ => none

/-- `Shutdown()` run with no other goroutine moving in between: cancel, close, wait.
`none` when the call blocks in `wg.Wait()`; a panic ends the call at once. -/
def Shutdown (s : State) : Option State :=
  let j := s.shutdowns.length
  match ShutdownClose (ShutdownCancel s) j with
  | none => none
  | some t => if t.panicked then some t else ShutdownWait t j

/-! ## Schedules -/

/-- The atomic steps of a run. -/
inductive Action where
  | addWorker
  | removeWorker (workerID : Int)
  | sendWork (data : String) (pick : SelectCase)
  | sendDirect (data : String) (i : Nat)
  | fallback (k : Nat)
  | fallbackDirect (k i : Nat)
  | shutdown
  | shutdownClose (j : Nat)
  | shutdownWait (j : Nat)
  | worker (i : Nat) (pick : WorkerCase)
deriving DecidableEq, Repr

/-- One step; nothing moves after a panic, and a step that panics leaves the pool as it
found it, with `panicked` set (the program is gone, nothing of it is observed later). -/
def step (s : State) (a : Action) : Option State :=
  if s.panicked then none
  else
    match a with
    | Action.addWorker =>
      match AddWorker s with
      | some r => some r.2
      | none => some { s with panicked := true }
    | Action.removeWorker workerID => some (RemoveWorker s workerID).2
    | Action.sendWork data pick => SendWork s data pick
    | Action.sendDirect data i => deliver s data i
    | Action.fallback k => SendWorkFallback s k
    | Action.fallbackDirect k i => SendWorkFallbackDirect s k i
    | Action.shutdown => some (ShutdownCancel s)
    | Action.shutdownClose j => ShutdownClose s j
    | Action.shutdownWait j => ShutdownWait s j
    | Action.worker i pick => worker s i pick

/-- A schedule, step by step; `none` when some step is not enabled. -/
def run (s : State) : List Action → Option State
  | [] => some s
  | a :: rest => (step s a).bind (fun t => run t rest)

/-- The states a pool can be in: those a schedule reaches from `NewWorkerPool`. -/
def Reachable (s : State) : Prop :=
  ∃ (bufferSize : Int) (s0 : State) (acts : List Action),
    NewWorkerPool bufferSize = some s0 ∧ run s0 acts = some s

/-- What the call behind a step returns to its caller, as far as identities go: the
identity of the new worker for an `AddWorker` that returns, nothing otherwise. -/
def returned (s : State) (a : Action) : List Int :=
  match a with
  | Action.addWorker =>
    match AddWorker s with
    | some r => [r.1]
    | none => []
  | _ => []

/-- The identities returned by the `AddWorker` calls of a schedule, in call order (up to
the first step that is not enabled). -/
def issued (s : State) : List Action → List Int
  | [] => []
  | a :: rest =>
    match step s a with
    | none => []
    | some t => returned s a ++ issued t rest

/-- The schedule of `n` rounds in which a worker is added, removed again, and leaves by
its cancelled scope: round `k` adds the worker of identity `k`, goroutine `k - 1`. -/
def churn : Nat → List Action
  | 0 => []
  | n + 1 =>
    churn n ++
      [Action.addWorker, Action.removeWorker ((n : Int) + 1), Action.worker n WorkerCase.done]

/-- The live worker executions bound to the scope that handle `h` cancels. -/
def boundLive (s : State) (h : Nat) : List Goroutine :=
  s.goroutines.filter (fun g => g.ctx == h && live g)

/-- What every schedule keeps true of the pool and its goroutines. -/
structure PoolInv (s : State) : Prop where
  ctx_eq : ∀ (i : Nat) (g : Goroutine), s.goroutines[i]? = some g → g.ctx = i
  wg_eq : s.wg = s.goroutines.countP live
  closed_root : s.closed = true → s.rootDone = true
  entry : ∀ (id : Int) (h : Nat), (id, h) ∈ s.workers →
    ∃ g : Goroutine, s.goroutines[h]? = some g ∧ g.id = id ∧
      (s.rootDone = false → h ∉ s.cancelled)
  handle_inj : ∀ (id1 id2 : Int) (h : Nat),
    (id1, h) ∈ s.workers → (id2, h) ∈ s.workers → id1 = id2
  cancelled_lt : ∀ h ∈ s.cancelled, h < s.goroutines.length
  stopped_done : ∀ (i : Nat) (g : Goroutine), s.goroutines[i]? = some g → g.pc = PC.stopped →
    s.rootDone = true ∨ i ∈ s.cancelled
  shut_root : s.shutdowns ≠ [] → s.rootDone = true
  shut_closed : ∀ p ∈ s.shutdowns, p ≠ ShutdownPC.closing → s.closed = true

/-- The state a schedule leads to from a new pool of the given capacity (the new pool
itself when some step of the schedule is not enabled). -/
def runFrom (capacity : Nat) (acts : List Action) : State :=
  (run (emptyPool capacity) acts).getD (emptyPool capacity)

/-! ## Theorems -/

/-! ## Go integers in range -/

theorem wrapInt_of_range (x : Int) (hlo : minInt ≤ x) (hhi : x ≤ maxInt) : wrapInt x = x := by
  unfold wrapInt
  unfold minInt at hlo
  unfold maxInt at hhi
  omega

theorem wrapInt_range (x : Int) : minInt ≤ wrapInt x ∧ wrapInt x ≤ maxInt := by
  unfold wrapInt minInt maxInt
  omega

/-! ## The map `workers` -/

theorem mem_mapDelete (m : List (Int × Nat)) (k : Int) (e : Int × Nat) :
    e ∈ mapDelete m k ↔ e ∈ m ∧ e.1 ≠ k := by
  simp [mapDelete]

theorem lookup_mapDelete_self (m : List (Int × Nat)) (k : Int) :
    (mapDelete m k).lookup k = none := by
  induction m with
  | nil => rfl
  | cons e m ih =>
    obtain ⟨a, b⟩ := e
    by_cases h : a = k
    · simpa [mapDelete, List.filter_cons, h] using ih
    · have hk : (k == a) = false := by simpa using fun h2 => h h2.symm
      simpa [mapDelete, List.filter_cons, h, List.lookup_cons, hk] using ih

theorem lookup_mapDelete_ne (m : List (Int × Nat)) (k j : Int) (hj : j ≠ k) :
    (mapDelete m k).lookup j = m.lookup j := by
  induction m with
  | nil => rfl
  | cons e m ih =>
    obtain ⟨a, b⟩ := e
    by_cases h : a = k
    · subst h
      have hja : (j == a) = false := by simpa using hj
      simpa [mapDelete, List.filter_cons, List.lookup_cons, hja] using ih
    · by_cases hja : j = a
      · simp [mapDelete, List.filter_cons, h, List.lookup_cons, hja]
      · have hja2 : (j == a) = false := by simpa using hja
        simpa [mapDelete, List.filter_cons, h, List.lookup_cons, hja2] using ih

theorem lookup_eq_none_iff (m : List (Int × Nat)) (k : Int) :
    m.lookup k = none ↔ k ∉ m.map Prod.fst := by
  induction m with
  | nil => simp
  | cons e m ih =>
    obtain ⟨a, b⟩ := e
    by_cases h : k = a
    · simp [List.lookup_cons, h]
    · have hk : (k == a) = false := by simpa using h
      simp [List.lookup_cons, hk, ih, h]

theorem lookup_some_mem (m : List (Int × Nat)) (k : Int) (v : Nat)
    (h : m.lookup k = some v) : (k, v) ∈ m := by
  induction m with
  | nil => simp at h
  | cons e m ih =>
    obtain ⟨a, b⟩ := e
    by_cases hk : k = a
    · simp [List.lookup_cons, hk] at h
      simp [hk, h]
    · have hk2 : (k == a) = false := by simpa using hk
      simp [List.lookup_cons, hk2] at h
      exact List.mem_cons_of_mem _ (ih h)

theorem mem_keys_iff (s : State) (k : Int) :
    k ∈ keys s ↔ ∃ v, s.workers.lookup k = some v := by
  unfold keys
  rw [← not_iff_not, ← lookup_eq_none_iff]
  cases s.workers.lookup k <;> simp

theorem mem_keys_mapDelete (m : List (Int × Nat)) (k j : Int) :
    j ∈ (mapDelete m k).map Prod.fst ↔ j ∈ m.map Prod.fst ∧ j ≠ k := by
  simp only [List.mem_map, mem_mapDelete]
  constructor
  · rintro ⟨e, ⟨he, hne⟩, rfl⟩
    exact ⟨⟨e, he, rfl⟩, hne⟩
  · rintro ⟨⟨e, he, rfl⟩, hne⟩
    exact ⟨e, ⟨he, hne⟩, rfl⟩


/-! ## Membership calls -/

theorem RemoveWorker_fst (s : State) (workerID : Int) :
    (RemoveWorker s workerID).1 = (s.workers.lookup workerID).isSome := by
  unfold RemoveWorker
  cases s.workers.lookup workerID <;> rfl

theorem RemoveWorker_of_lookup_some (s : State) (workerID : Int) (h : Nat)
    (hl : s.workers.lookup workerID = some h) :
    RemoveWorker s workerID =
      (true, { s with cancelled := h :: s.cancelled, workers := mapDelete s.workers workerID }) := by
  unfold RemoveWorker
  rw [hl]

theorem RemoveWorker_of_lookup_none (s : State) (workerID : Int)
    (hl : s.workers.lookup workerID = none) : RemoveWorker s workerID = (false, s) := by
  unfold RemoveWorker
  rw [hl]

theorem NewWorkerPool_eq (bufferSize : Int) (s0 : State) (h : NewWorkerPool bufferSize = some s0) :
    s0 = emptyPool bufferSize.toNat := by
  unfold NewWorkerPool at h
  split at h
  · simp at h
  · simpa using h.symm

theorem NewWorkerPool_five : NewWorkerPool 5 = some (emptyPool 5) := by decide

/-- C1: `RemoveWorker(id)` returns true exactly when `id` is a key of the map `workers` at
the time of the call; when it returns true, the cancel handle stored under `id` has been
fired (the scope it names is done) and `id` is no longer a key afterwards; on a pool fresh
from `NewWorkerPool`, `RemoveWorker(999)`, and `RemoveWorker` of any other identity,
returns false. -/
theorem RemoveWorker_true_iff_key (s : State) (workerID : Int) :
    ((RemoveWorker s workerID).1 = true ↔ workerID ∈ keys s) ∧
    ((RemoveWorker s workerID).1 = true →
      (∃ h, s.workers.lookup workerID = some h ∧
        h ∈ (RemoveWorker s workerID).2.cancelled ∧
        ctxDone (RemoveWorker s workerID).2 h = true) ∧
      workerID ∉ keys (RemoveWorker s workerID).2) ∧
    (∀ (bufferSize : Int) (s0 : State), NewWorkerPool bufferSize = some s0 →
      (RemoveWorker s0 999).1 = false ∧ (RemoveWorker s0 workerID).1 = false) := by
  refine ⟨?_, ?_, ?_⟩
  · rw [RemoveWorker_fst, mem_keys_iff, Option.isSome_iff_exists]
  · intro ht
    rw [RemoveWorker_fst, Option.isSome_iff_exists] at ht
    obtain ⟨h, hl⟩ := ht
    rw [RemoveWorker_of_lookup_some s workerID h hl]
    refine ⟨⟨h, hl, ?_, ?_⟩, ?_⟩
    · simp
    · simp [ctxDone]
    · rw [mem_keys_iff]
      simp [lookup_mapDelete_self]
  · intro bufferSize s0 h0
    rw [NewWorkerPool_eq bufferSize s0 h0]
    exact ⟨rfl, rfl⟩

/-- C2: for every pool state and every identity that is registered, the first
`RemoveWorker(id)` returns true and an immediately following `RemoveWorker(id)` returns
false and leaves the whole state, so the map `workers` and `workerIDCounter` too, exactly
as the first call left it; an identity just returned by `AddWorker` is registered. -/
theorem RemoveWorker_twice (s : State) (workerID : Int) (hk : workerID ∈ keys s) :
    (RemoveWorker s workerID).1 = true ∧
    (RemoveWorker (RemoveWorker s workerID).2 workerID).1 = false ∧
    (RemoveWorker (RemoveWorker s workerID).2 workerID).2 = (RemoveWorker s workerID).2 ∧
    (RemoveWorker (RemoveWorker s workerID).2 workerID).2.workers =
      (RemoveWorker s workerID).2.workers ∧
    (RemoveWorker (RemoveWorker s workerID).2 workerID).2.workerIDCounter =
      (RemoveWorker s workerID).2.workerIDCounter ∧
    (∀ (u : State) (r : Int × State), AddWorker u = some r → r.1 ∈ keys r.2) := by
  rw [mem_keys_iff] at hk
  obtain ⟨h, hl⟩ := hk
  have h2 : (RemoveWorker (RemoveWorker s workerID).2 workerID) =
      (false, (RemoveWorker s workerID).2) := by
    apply RemoveWorker_of_lookup_none
    rw [RemoveWorker_of_lookup_some s workerID h hl]
    exact lookup_mapDelete_self _ _
  refine ⟨?_, ?_, ?_, ?_, ?_, ?_⟩
  · rw [RemoveWorker_of_lookup_some s workerID h hl]
  · rw [h2]
  · rw [h2]
  · rw [h2]
  · rw [h2]
  · intro u r hr
    unfold AddWorker at hr
    split at hr
    · simp at hr
    · rw [← Option.some.inj hr]
      simp [keys, mapStore]

/-- Witness of C2: on a pool of capacity 5 with one worker, identity 1 is registered and
is removed once. -/
theorem RemoveWorker_twice_witness :
    (1 : Int) ∈ keys (runFrom 5 [Action.addWorker]) ∧
    (RemoveWorker (runFrom 5 [Action.addWorker]) 1).1 = true ∧
    (RemoveWorker (RemoveWorker (runFrom 5 [Action.addWorker]) 1).2 1).1 = false :=
  ⟨by decide,
   (RemoveWorker_twice (runFrom 5 [Action.addWorker]) 1 (by decide)).1,
   (RemoveWorker_twice (runFrom 5 [Action.addWorker]) 1 (by decide)).2.1⟩

theorem AddWorker_of_room (s : State) (h : s.wg < maxWaitGroup) :
    AddWorker s = some (wrapInt (s.workerIDCounter + 1),
      { s with
        workerIDCounter := wrapInt (s.workerIDCounter + 1)
        workers := mapStore s.workers (wrapInt (s.workerIDCounter + 1)) s.goroutines.length
        wg := s.wg + 1
        goroutines := s.goroutines ++
          [{ ctx := s.goroutines.length, id := wrapInt (s.workerIDCounter + 1),
             pc := PC.selecting }] }) := by
  unfold AddWorker
  rw [if_neg (by omega)]

theorem AddWorker_of_full (s : State) (h : maxWaitGroup ≤ s.wg) : AddWorker s = none := by
  unfold AddWorker
  rw [if_pos h]

theorem AddWorker_some (s : State) (r : Int × State) (h : AddWorker s = some r) :
    s.wg < maxWaitGroup ∧ r = (wrapInt (s.workerIDCounter + 1),
      { s with
        workerIDCounter := wrapInt (s.workerIDCounter + 1)
        workers := mapStore s.workers (wrapInt (s.workerIDCounter + 1)) s.goroutines.length
        wg := s.wg + 1
        goroutines := s.goroutines ++
          [{ ctx := s.goroutines.length, id := wrapInt (s.workerIDCounter + 1),
             pc := PC.selecting }] }) := by
  by_cases hw : maxWaitGroup ≤ s.wg
  · rw [AddWorker_of_full s hw] at h
    simp at h
  · rw [AddWorker_of_room s (by omega)] at h
    exact ⟨by omega, (Option.some.inj h).symm⟩

theorem step_addWorker (s : State) (hp : s.panicked = false) :
    step s Action.addWorker =
      match AddWorker s with
      | some r => some r.2
      | none => some { s with panicked := true } := by
  unfold step
  rw [if_neg (by simp [hp])]

/-! ## Identities along a schedule -/

theorem mem_keys_RemoveWorker (s : State) (workerID k : Int) :
    k ∈ keys (RemoveWorker s workerID).2 ↔ k ∈ keys s ∧ k ≠ workerID := by
  cases hl : s.workers.lookup workerID with
  | none =>
    rw [RemoveWorker_of_lookup_none s workerID hl]
    constructor
    · intro hk
      refine ⟨hk, ?_⟩
      rintro rfl
      exact (lookup_eq_none_iff _ _).1 hl hk
    · exact fun h => h.1
  | some h =>
    rw [RemoveWorker_of_lookup_some s workerID h hl]
    simp only [keys, mem_keys_mapDelete]

theorem RemoveWorker_counter (s : State) (workerID : Int) :
    (RemoveWorker s workerID).2.workerIDCounter = s.workerIDCounter := by
  unfold RemoveWorker
  cases s.workers.lookup workerID <;> rfl

theorem workerExit_registry (s : State) (i : Nat) (g : Goroutine) :
    (workerExit s i g).workers = s.workers ∧
    (workerExit s i g).workerIDCounter = s.workerIDCounter := by
  unfold workerExit
  split <;> exact ⟨rfl, rfl⟩

theorem deliver_registry (s t : State) (data : String) (i : Nat)
    (h : deliver s data i = some t) :
    t.workers = s.workers ∧ t.workerIDCounter = s.workerIDCounter := by
  unfold deliver at h
  split at h
  · simp at h
  · split at h
    · simp at h
    · split at h
      · rw [← Option.some.inj h]
        exact ⟨rfl, rfl⟩
      · simp at h

/-- What a step does to the registry: an `AddWorker` that returns, an `AddWorker` that
panics, a `RemoveWorker`, or a step that leaves map and counter alone. -/
theorem step_registry (s t : State) (a : Action) (h : step s a = some t) :
    (a = Action.addWorker ∧ ∃ r, AddWorker s = some r ∧ t = r.2) ∨
    (a = Action.addWorker ∧ AddWorker s = none ∧ t = { s with panicked := true }) ∨
    (∃ workerID, a = Action.removeWorker workerID ∧ t = (RemoveWorker s workerID).2) ∨
    (a ≠ Action.addWorker ∧ t.workers = s.workers ∧
      t.workerIDCounter = s.workerIDCounter) := by
  unfold step at h
  split at h
  · simp at h
  · cases a with
    | addWorker =>
      simp only at h
      split at h
      · rename_i r hr
        exact Or.inl ⟨rfl, r, hr, (Option.some.inj h).symm⟩
      · rename_i hr
        exact Or.inr (Or.inl ⟨rfl, hr, (Option.some.inj h).symm⟩)
    | removeWorker workerID =>
      simp only at h
      exact Or.inr (Or.inr (Or.inl ⟨workerID, rfl, (Option.some.inj h).symm⟩))
    | sendWork data pick =>
      simp only at h
      refine Or.inr (Or.inr (Or.inr ⟨by simp, ?_⟩))
      unfold SendWork at h
      cases pick with
      | send =>
        simp only at h
        split at h
        · rw [← Option.some.inj h]
          exact ⟨rfl, rfl⟩
        · split at h
          · rw [← Option.some.inj h]
            exact ⟨rfl, rfl⟩
          · simp at h
      | done =>
        simp only at h
        split at h
        · rw [← Option.some.inj h]
          exact ⟨rfl, rfl⟩
        · simp at h
      | dflt =>
        simp only at h
        split at h
        · simp at h
        · rw [← Option.some.inj h]
          exact ⟨rfl, rfl⟩
    | sendDirect data i =>
      simp only at h
      exact Or.inr (Or.inr (Or.inr ⟨by simp, deliver_registry s t data i h⟩))
    | fallback k =>
      simp only at h
      refine Or.inr (Or.inr (Or.inr ⟨by simp, ?_⟩))
      unfold SendWorkFallback at h
      split at h
      · simp at h
      · split at h
        · rw [← Option.some.inj h]
          exact ⟨rfl, rfl⟩
        · split at h
          · rw [← Option.some.inj h]
            exact ⟨rfl, rfl⟩
          · simp at h
    | fallbackDirect k i =>
      simp only at h
      refine Or.inr (Or.inr (Or.inr ⟨by simp, ?_⟩))
      unfold SendWorkFallbackDirect at h
      split at h
      · simp at h
      · rename_i data _
        cases hd : deliver s data i with
        | none => rw [hd] at h; simp at h
        | some u =>
          rw [hd] at h
          simp only [Option.map_some'] at h
          rw [← Option.some.inj h]
          exact deliver_registry s u data i hd
    | shutdown =>
      simp only at h
      rw [← Option.some.inj h]
      exact Or.inr (Or.inr (Or.inr ⟨by simp, rfl, rfl⟩))
    | shutdownClose j =>
      simp only at h
      refine Or.inr (Or.inr (Or.inr ⟨by simp, ?_⟩))
      unfold ShutdownClose at h
      split at h
      · split at h
        · rw [← Option.some.inj h]
          exact ⟨rfl, rfl⟩
        · rw [← Option.some.inj h]
          exact ⟨rfl, rfl⟩
      · simp at h
    | shutdownWait j =>
      simp only at h
      refine Or.inr (Or.inr (Or.inr ⟨by simp, ?_⟩))
      unfold ShutdownWait at h
      split at h
      · split at h
        · rw [← Option.some.inj h]
          exact ⟨rfl, rfl⟩
        · simp at h
      · simp at h
    | worker i pick =>
      simp only at h
      refine Or.inr (Or.inr (Or.inr ⟨by simp, ?_⟩))
      unfold worker at h
      split at h
      · simp at h
      · split at h
        · simp at h
        · rw [← Option.some.inj h]
          exact ⟨rfl, rfl⟩
        · split at h
          · split at h
            · rw [← Option.some.inj h]
              exact workerExit_registry _ _ _
            · simp at h
          · split at h
            · rw [← Option.some.inj h]
              exact ⟨rfl, rfl⟩
            · split at h
              · rw [← Option.some.inj h]
                exact workerExit_registry _ _ _
              · simp at h

theorem run_cons (s : State) (a : Action) (rest : List Action) (t : State)
    (h : run s (a :: rest) = some t) : ∃ u, step s a = some u ∧ run u rest = some t := by
  simp only [run] at h
  cases hs : step s a with
  | none => rw [hs] at h; simp at h
  | some u =>
    rw [hs] at h
    exact ⟨u, rfl, h⟩

theorem run_append (xs ys : List Action) : ∀ s : State,
    run s (xs ++ ys) = (run s xs).bind (fun t => run t ys) := by
  induction xs with
  | nil => intro s; simp [run]
  | cons a xs ih =>
    intro s
    simp only [List.cons_append, run]
    cases step s a with
    | none => simp
    | some u => simpa using ih u

theorem issued_append (xs ys : List Action) : ∀ s t : State, run s xs = some t →
    issued s (xs ++ ys) = issued s xs ++ issued t ys := by
  induction xs with
  | nil =>
    intro s t h
    simp only [run] at h
    rw [← Option.some.inj h]
    simp [issued]
  | cons a xs ih =>
    intro s t h
    obtain ⟨u, hs, hr⟩ := run_cons s a xs t h
    have hi := ih u t hr
    simp only [List.cons_append, issued, hs, List.append_assoc]
    exact congrArg _ hi

theorem run_of_panicked (acts : List Action) (s t : State) (hp : s.panicked = true)
    (h : run s acts = some t) : t = s := by
  cases acts with
  | nil =>
    simp only [run] at h
    exact (Option.some.inj h).symm
  | cons a rest =>
    simp [run, step, hp] at h

theorem returned_of_ne (s : State) (a : Action) (h : a ≠ Action.addWorker) :
    returned s a = [] := by
  cases a <;> first | rfl | exact absurd rfl h

theorem count_cons_add (rest : List Action) :
    ((Action.addWorker :: rest).count Action.addWorker : Int) =
      (rest.count Action.addWorker : Int) + 1 := by
  simp

theorem count_cons_ne (a : Action) (rest : List Action) (h : a ≠ Action.addWorker) :
    ((a :: rest).count Action.addWorker : Int) = (rest.count Action.addWorker : Int) := by
  rw [List.count_cons_of_ne (fun h2 => h h2.symm)]

theorem mem_keys_AddWorker (s : State) (r : Int × State) (hr : AddWorker s = some r) (k : Int) :
    k ∈ keys r.2 ↔ k = r.1 ∨ (k ∈ keys s ∧ k ≠ r.1) := by
  rw [(AddWorker_some s r hr).2]
  simp only [keys, mapStore, List.map_cons, List.mem_cons, mem_keys_mapDelete]

theorem schedule_ids (acts : List Action) : ∀ (s t : State), run s acts = some t →
    0 ≤ s.workerIDCounter →
    (∀ k ∈ keys s, 1 ≤ k ∧ k ≤ s.workerIDCounter) →
    s.workerIDCounter + (acts.count Action.addWorker : Int) ≤ maxInt →
    s.workerIDCounter ≤ t.workerIDCounter ∧
    t.workerIDCounter ≤ s.workerIDCounter + (acts.count Action.addWorker : Int) ∧
    (∀ x ∈ issued s acts, s.workerIDCounter < x ∧ x ≤ t.workerIDCounter) ∧
    (issued s acts).Pairwise (fun a b => a < b) ∧
    (∀ k ∈ keys t, 1 ≤ k ∧ k ≤ t.workerIDCounter) ∧
    (∀ k, k ≤ s.workerIDCounter → k ∉ keys s → k ∉ keys t) := by
  induction acts with
  | nil =>
    intro s t h _ hk _
    simp only [run] at h
    rw [← Option.some.inj h]
    simp only [List.count_nil, Nat.cast_zero, add_zero, issued, List.not_mem_nil,
      List.Pairwise.nil, true_and, false_implies, implies_true, le_refl]
    exact ⟨hk, fun k _ h => h⟩
  | cons a rest ih =>
    intro s t h h0 hk hn
    obtain ⟨u, hs, hr⟩ := run_cons s a rest t h
    have hiss : issued s (a :: rest) = returned s a ++ issued u rest := by
      simp only [issued, hs]
    have hcr : (0 : Int) ≤ (rest.count Action.addWorker : Int) := Int.ofNat_nonneg _
    rcases step_registry s u a hs with ⟨rfl, r, hadd, rfl⟩ | ⟨rfl, hadd, rfl⟩ |
        ⟨workerID, rfl, rfl⟩ | ⟨hne, hw, hc⟩
    · -- `AddWorker` returns
      rw [count_cons_add] at hn ⊢
      have hw : wrapInt (s.workerIDCounter + 1) = s.workerIDCounter + 1 :=
        wrapInt_of_range _ (by unfold minInt; omega) (by omega)
      have hr1 : r.1 = s.workerIDCounter + 1 := by
        rw [(AddWorker_some s r hadd).2, hw]
      have hc : r.2.workerIDCounter = s.workerIDCounter + 1 := by
        rw [(AddWorker_some s r hadd).2, hw]
      have hret : returned s Action.addWorker = [r.1] := by
        simp only [returned, hadd]
      have hk2 : ∀ k ∈ keys r.2, 1 ≤ k ∧ k ≤ r.2.workerIDCounter := by
        intro k hkm
        rw [mem_keys_AddWorker s r hadd, hr1] at hkm
        rw [hc]
        rcases hkm with rfl | ⟨hkm, _⟩
        · omega
        · have := hk k hkm
          omega
      obtain ⟨i1, i2, i3, i4, i5, i6⟩ := ih r.2 t hr (by omega) hk2 (by omega)
      rw [hc] at i1 i2 i3 i6
      rw [hiss, hret]
      refine ⟨by omega, by omega, ?_, ?_, i5, ?_⟩
      · intro x hx
        rcases List.mem_append.1 hx with hx | hx
        · rw [List.mem_singleton] at hx
          rw [hx, hr1]
          omega
        · have := i3 x hx
          omega
      · rw [List.singleton_append, List.pairwise_cons]
        refine ⟨?_, i4⟩
        intro b hb
        have := i3 b hb
        rw [hr1]
        omega
      · intro k hkc hkn
        apply i6 k (by omega)
        rw [mem_keys_AddWorker s r hadd, hr1]
        rintro (rfl | ⟨hkm, _⟩)
        · omega
        · exact hkn hkm
    · -- `AddWorker` panics
      rw [count_cons_add] at hn ⊢
      have hret : returned s Action.addWorker = [] := by
        simp only [returned, hadd]
      obtain ⟨i1, i2, i3, i4, i5, i6⟩ :=
        ih { s with panicked := true } t hr h0 hk (by show s.workerIDCounter + _ ≤ _; omega)
      rw [hiss, hret, List.nil_append]
      exact ⟨i1, by have := i2; simp only at this; omega, i3, i4, i5, i6⟩
    · -- `RemoveWorker`
      rw [count_cons_ne _ _ (by simp)] at hn ⊢
      have hc := RemoveWorker_counter s workerID
      have hk2 : ∀ k ∈ keys (RemoveWorker s workerID).2,
          1 ≤ k ∧ k ≤ (RemoveWorker s workerID).2.workerIDCounter := by
        intro k hkm
        rw [mem_keys_RemoveWorker] at hkm
        rw [hc]
        exact hk k hkm.1
      obtain ⟨i1, i2, i3, i4, i5, i6⟩ :=
        ih (RemoveWorker s workerID).2 t hr (by rw [hc]; exact h0) hk2 (by rw [hc]; exact hn)
      rw [hc] at i1 i2 i3 i6
      rw [hiss, returned_of_ne s _ (by simp), List.nil_append]
      refine ⟨i1, i2, i3, i4, i5, ?_⟩
      intro k hkc hkn
      apply i6 k hkc
      rw [mem_keys_RemoveWorker]
      exact fun h => hkn h.1
    · -- any other step
      rw [count_cons_ne _ _ hne] at hn ⊢
      have hkeys : keys u = keys s := by unfold keys; rw [hw]
      obtain ⟨i1, i2, i3, i4, i5, i6⟩ :=
        ih u t hr (by rw [hc]; exact h0) (by rw [hkeys, hc]; exact hk) (by rw [hc]; exact hn)
      rw [hc] at i1 i2 i3 i6
      rw [hkeys] at i6
      rw [hiss, returned_of_ne s a hne, List.nil_append]
      exact ⟨i1, i2, i3, i4, i5, i6⟩

/-- C3, amended: for every schedule from a pool built by `NewWorkerPool` that holds at most
2^63 - 1 `AddWorker` calls (so that the `int` counter does not wrap), whatever
`RemoveWorker` calls and other steps it holds, the identities returned by the
`AddWorker` calls are strictly increasing and pairwise distinct, every key of `workers`
lies between 1 and `workerIDCounter`, and an identity that was returned and is no longer
a key at some point of the schedule is not a key at any later point. -/
theorem identities_never_reused (bufferSize : Int) (s0 t : State) (acts : List Action)
    (h0 : NewWorkerPool bufferSize = some s0) (hrun : run s0 acts = some t)
    (hn : (acts.count Action.addWorker : Int) ≤ maxInt) :
    (issued s0 acts).Pairwise (fun a b => a < b) ∧
    (issued s0 acts).Nodup ∧
    (∀ k ∈ keys t, 1 ≤ k ∧ k ≤ t.workerIDCounter) ∧
    (∀ (pre post : List Action) (u : State) (k : Int), acts = pre ++ post →
      run s0 pre = some u → k ∈ issued s0 pre → k ∉ keys u → k ∉ keys t) := by
  have hs := NewWorkerPool_eq bufferSize s0 h0
  have hc0 : s0.workerIDCounter = 0 := by rw [hs]; rfl
  have hk0 : ∀ k ∈ keys s0, 1 ≤ k ∧ k ≤ s0.workerIDCounter := by
    intro k hk
    rw [hs] at hk
    simp [keys, emptyPool] at hk
  obtain ⟨_, _, _, i4, i5, _⟩ := schedule_ids acts s0 t hrun (by omega) hk0 (by omega)
  refine ⟨i4, i4.imp (fun h => ne_of_lt h), i5, ?_⟩
  intro pre post u k hcs hpre hkin hkout
  subst hcs
  have hcnt : ((pre ++ post).count Action.addWorker : Int) =
      (pre.count Action.addWorker : Int) + (post.count Action.addWorker : Int) := by
    simp
  rw [hcnt] at hn
  have hp : (0 : Int) ≤ (post.count Action.addWorker : Int) := Int.ofNat_nonneg _
  have hq : (0 : Int) ≤ (pre.count Action.addWorker : Int) := Int.ofNat_nonneg _
  obtain ⟨p1, p2, p3, _, p5, _⟩ := schedule_ids pre s0 u hpre (by omega) hk0 (by omega)
  have hpost : run u post = some t := by
    rw [run_append, hpre] at hrun
    simpa using hrun
  obtain ⟨_, _, _, _, _, q6⟩ := schedule_ids post u t hpost (by omega) p5 (by omega)
  exact q6 k (p3 k hkin).2 hkout

/-- Witness of C3: on a pool of capacity 5, two workers are added, a task is sent and
taken, worker 1 is removed and leaves, and a third worker is added: the identities
returned are 1, 2, 3 and the keys left are 3 and 2. -/
theorem identities_never_reused_witness :
    issued (emptyPool 5) [Action.addWorker, Action.addWorker,
      Action.sendWork "task1" SelectCase.send, Action.worker 1 WorkerCase.recv,
      Action.removeWorker 1, Action.worker 0 WorkerCase.done, Action.addWorker] = [1, 2, 3] ∧
    keys (runFrom 5 [Action.addWorker, Action.addWorker,
      Action.sendWork "task1" SelectCase.send, Action.worker 1 WorkerCase.recv,
      Action.removeWorker 1, Action.worker 0 WorkerCase.done, Action.addWorker]) = [3, 2] ∧
    (issued (emptyPool 5) [Action.addWorker, Action.addWorker,
      Action.sendWork "task1" SelectCase.send, Action.worker 1 WorkerCase.recv,
      Action.removeWorker 1, Action.worker 0 WorkerCase.done, Action.addWorker]).Pairwise
      (fun a b => a < b) :=
  ⟨by decide, by decide,
   (identities_never_reused 5 (emptyPool 5)
      (runFrom 5 [Action.addWorker, Action.addWorker,
        Action.sendWork "task1" SelectCase.send, Action.worker 1 WorkerCase.recv,
        Action.removeWorker 1, Action.worker 0 WorkerCase.done, Action.addWorker])
      [Action.addWorker, Action.addWorker,
        Action.sendWork "task1" SelectCase.send, Action.worker 1 WorkerCase.recv,
        Action.removeWorker 1, Action.worker 0 WorkerCase.done, Action.addWorker]
      NewWorkerPool_five (by decide) (by decide)).1⟩

/-! ## Adding, removing, leaving, again and again -/

/-- A round of `churn` from a pool with no worker outstanding and an empty map. -/
theorem churn_round (t : State) (n : Nat) (hc : t.workerIDCounter = n) (hwg : t.wg = 0)
    (hm : t.workers = []) (hg : t.goroutines.length = n) (hp : t.panicked = false)
    (hn : (n : Int) + 1 ≤ maxInt) :
    ∃ u, run t [Action.addWorker, Action.removeWorker ((n : Int) + 1),
        Action.worker n WorkerCase.done] = some u ∧
      u.workerIDCounter = (n : Int) + 1 ∧ u.wg = 0 ∧ u.workers = [] ∧
      u.goroutines.length = n + 1 ∧ u.panicked = false ∧
      issued t [Action.addWorker, Action.removeWorker ((n : Int) + 1),
        Action.worker n WorkerCase.done] = [(n : Int) + 1] := by
  have hw : wrapInt (t.workerIDCounter + 1) = (n : Int) + 1 := by
    rw [hc]
    exact wrapInt_of_range _ (by unfold minInt; omega) hn
  have hadd := AddWorker_of_room t (by rw [hwg]; decide)
  rw [hw, hm, hg, hwg] at hadd
  have h1 : step t Action.addWorker = some
      { t with
        workerIDCounter := (n : Int) + 1
        workers := [((n : Int) + 1, n)]
        wg := 1
        goroutines := t.goroutines ++ [{ ctx := n, id := (n : Int) + 1, pc := PC.selecting }] } := by
    rw [step_addWorker t hp, hadd]
    rfl
  have h2 : step
      { t with
        workerIDCounter := (n : Int) + 1
        workers := [((n : Int) + 1, n)]
        wg := 1
        goroutines := t.goroutines ++ [{ ctx := n, id := (n : Int) + 1, pc := PC.selecting }] }
      (Action.removeWorker ((n : Int) + 1)) = some
      { t with
        workerIDCounter := (n : Int) + 1
        workers := []
        wg := 1
        cancelled := n :: t.cancelled
        goroutines := t.goroutines ++ [{ ctx := n, id := (n : Int) + 1, pc := PC.selecting }] } := by
    simp [step, hp, RemoveWorker, List.lookup_cons, mapDelete]
  have hget : (t.goroutines ++
      [({ ctx := n, id := (n : Int) + 1, pc := PC.selecting } : Goroutine)])[n]? =
      some { ctx := n, id := (n : Int) + 1, pc := PC.selecting } := by
    rw [← hg]
    exact List.getElem?_concat_length _ _
  have h3 : step
      { t with
        workerIDCounter := (n : Int) + 1
        workers := []
        wg := 1
        cancelled := n :: t.cancelled
        goroutines := t.goroutines ++ [{ ctx := n, id := (n : Int) + 1, pc := PC.selecting }] }
      (Action.worker n WorkerCase.done) = some
      { t with
        workerIDCounter := (n : Int) + 1
        workers := []
        wg := 0
        cancelled := n :: t.cancelled
        goroutines := (t.goroutines ++
          [({ ctx := n, id := (n : Int) + 1, pc := PC.selecting } : Goroutine)]).set n
            { ctx := n, id := (n : Int) + 1, pc := PC.stopped } } := by
    simp [step, hp, worker, hget, ctxDone, workerExit]
  have hrun : run t [Action.addWorker, Action.removeWorker ((n : Int) + 1),
      Action.worker n WorkerCase.done] = some
      { t with
        workerIDCounter := (n : Int) + 1
        workers := []
        wg := 0
        cancelled := n :: t.cancelled
        goroutines := (t.goroutines ++
          [({ ctx := n, id := (n : Int) + 1, pc := PC.selecting } : Goroutine)]).set n
            { ctx := n, id := (n : Int) + 1, pc := PC.stopped } } := by
    simp only [run, h1, h2, h3, Option.some_bind]
  refine ⟨_, hrun, rfl, rfl, rfl, ?_, hp, ?_⟩
  · simp [hg]
  · simp only [issued, h1, h2, h3, returned, hadd]
    rfl

theorem churn_state (capacity : Nat) (n : Nat) (hn : (n : Int) ≤ maxInt) :
    ∃ t, run (emptyPool capacity) (churn n) = some t ∧
      t.workerIDCounter = (n : Int) ∧ t.wg = 0 ∧ t.workers = [] ∧
      t.goroutines.length = n ∧ t.panicked = false ∧
      issued (emptyPool capacity) (churn n) = (List.range n).map (fun (i : Nat) => (i : Int) + 1) := by
  induction n with
  | zero => exact ⟨emptyPool capacity, rfl, rfl, rfl, rfl, rfl, rfl, rfl⟩
  | succ n ih =>
    have hn2 : (n : Int) + 1 ≤ maxInt := by push_cast at hn; exact hn
    obtain ⟨t, h1, h2, h3, h4, h5, h6, h7⟩ := ih (by omega)
    obtain ⟨u, g1, g2, g3, g4, g5, g6, g7⟩ := churn_round t n h2 h3 h4 h5 h6 hn2
    refine ⟨u, ?_, ?_, g3, g4, g5, g6, ?_⟩
    · show run (emptyPool capacity) (churn n ++ _) = some u
      rw [run_append, h1]
      exact g1
    · rw [g2]
      push_cast
      rfl
    · show issued (emptyPool capacity) (churn n ++ _) = _
      rw [issued_append _ _ _ t h1, h7, g7, List.range_succ, List.map_append]
      rfl

theorem churn_wrap (n : Nat) (hn : (n : Int) = maxInt) (hpos : 0 < n) :
    (run (emptyPool 5) (churn n ++ [Action.addWorker])).map (fun t => t.panicked)
      = some false ∧
    (1 : Int) ∈ issued (emptyPool 5) (churn n ++ [Action.addWorker]) ∧
    minInt ∈ issued (emptyPool 5) (churn n ++ [Action.addWorker]) ∧
    ¬ (issued (emptyPool 5) (churn n ++ [Action.addWorker])).Pairwise (fun a b => a < b) := by
  obtain ⟨t, h1, h2, h3, h4, h5, h6, h7⟩ := churn_state 5 n (by omega)
  have hadd := AddWorker_of_room t (by rw [h3]; decide)
  have hw : wrapInt (t.workerIDCounter + 1) = minInt := by
    rw [h2, hn]
    decide
  rw [hw] at hadd
  have hstep := step_addWorker t h6
  rw [hadd] at hstep
  have hone : (1 : Int) ∈ issued (emptyPool 5) (churn n) := by
    rw [h7, List.mem_map]
    exact ⟨0, List.mem_range.2 hpos, by simp⟩
  have hiss : issued (emptyPool 5) (churn n ++ [Action.addWorker]) =
      issued (emptyPool 5) (churn n) ++ [minInt] := by
    rw [issued_append _ _ _ t h1]
    simp only [issued, hstep, returned, hadd, List.append_nil]
  refine ⟨?_, ?_, ?_, ?_⟩
  · rw [run_append, h1]
    simp only [Option.some_bind, run, hstep, Option.map_some']
    exact congrArg some h6
  · rw [hiss]
    exact List.mem_append_left _ hone
  · rw [hiss]
    exact List.mem_append_right _ (List.mem_singleton_self _)
  · rw [hiss]
    intro hp
    rw [List.pairwise_append] at hp
    have hlt : (1 : Int) < minInt := hp.2.2 1 hone minInt (List.mem_singleton_self _)
    revert hlt
    decide

/-- Counterexample of C3: on a pool of capacity 5, 2^63 - 1 rounds in which a worker is
added, removed, and leaves by its cancelled scope (so that no more than one worker is
ever outstanding), followed by one more `AddWorker`. Every step of the schedule is
enabled and none panics; the first `AddWorker` returns 1 and the last returns the
smallest `int`, so the identities returned are not increasing. -/
theorem identities_wrap_counterexample :
    (run (emptyPool 5) (churn 9223372036854775807 ++ [Action.addWorker])).map
      (fun t => t.panicked) = some false ∧
    (1 : Int) ∈ issued (emptyPool 5) (churn 9223372036854775807 ++ [Action.addWorker]) ∧
    minInt ∈ issued (emptyPool 5) (churn 9223372036854775807 ++ [Action.addWorker]) ∧
    ¬ (issued (emptyPool 5) (churn 9223372036854775807 ++ [Action.addWorker])).Pairwise
      (fun a b => a < b) :=
  churn_wrap 9223372036854775807 (by decide) (by decide)

/-! ## `AddWorker` -/

theorem run_counter (acts : List Action) : ∀ (s t : State), run s acts = some t →
    t.panicked = false → 0 ≤ s.workerIDCounter →
    s.workerIDCounter + (acts.count Action.addWorker : Int) ≤ maxInt →
    t.workerIDCounter = s.workerIDCounter + (acts.count Action.addWorker : Int) := by
  induction acts with
  | nil =>
    intro s t h _ _ _
    simp only [run] at h
    rw [← Option.some.inj h]
    simp
  | cons a rest ih =>
    intro s t h hp h0 hn
    obtain ⟨u, hs, hr⟩ := run_cons s a rest t h
    have hcr : (0 : Int) ≤ (rest.count Action.addWorker : Int) := Int.ofNat_nonneg _
    rcases step_registry s u a hs with ⟨rfl, r, hadd, rfl⟩ | ⟨rfl, _, rfl⟩ |
        ⟨workerID, rfl, rfl⟩ | ⟨hne, _, hc⟩
    · rw [count_cons_add] at hn ⊢
      have hc : r.2.workerIDCounter = s.workerIDCounter + 1 := by
        rw [(AddWorker_some s r hadd).2]
        exact wrapInt_of_range _ (by unfold minInt; omega) (by omega)
      rw [ih r.2 t hr hp (by omega) (by omega), hc]
      ring
    · have := run_of_panicked rest _ t rfl hr
      rw [this] at hp
      simp at hp
    · rw [count_cons_ne _ _ (by simp)] at hn ⊢
      have hc := RemoveWorker_counter s workerID
      rw [ih _ t hr hp (by rw [hc]; exact h0) (by rw [hc]; exact hn), hc]
    · rw [count_cons_ne _ _ hne] at hn ⊢
      rw [ih u t hr hp (by rw [hc]; exact h0) (by rw [hc]; exact hn), hc]

/-- C4, amended: for every pool state whose counter `c` is an `int` below the largest one
and whose wait-group counter is below the largest value a wait group holds, `AddWorker`
returns `c+1`, sets `workerIDCounter` to `c+1`, stores exactly the key `c+1` in `workers`
(bound to the handle of the scope derived for the new worker, every other key as
before), raises the wait-group counter by one, starts exactly one worker, bound to
identity `c+1` and that scope, and changes nothing else; hence in every schedule from a
new pool that has not panicked, with `k - 1` calls of `AddWorker` so far, `k` at most the
largest `int` and room in the wait group, the `k`-th call returns `k`; and the first call
on a new pool returns 1. -/
theorem AddWorker_spec (s : State) (hlo : minInt ≤ s.workerIDCounter)
    (hhi : s.workerIDCounter < maxInt) (hwg : s.wg < maxWaitGroup) :
    ∃ t : State, AddWorker s = some (s.workerIDCounter + 1, t) ∧
      t.workerIDCounter = s.workerIDCounter + 1 ∧
      t.workers.lookup (s.workerIDCounter + 1) = some s.goroutines.length ∧
      (∀ k, k ≠ s.workerIDCounter + 1 → t.workers.lookup k = s.workers.lookup k) ∧
      t.wg = s.wg + 1 ∧
      t.goroutines = s.goroutines ++
        [{ ctx := s.goroutines.length, id := s.workerIDCounter + 1, pc := PC.selecting }] ∧
      t = { t with
        inputChan := s.inputChan, cap := s.cap, closed := s.closed, rootDone := s.rootDone,
        cancelled := s.cancelled, senders := s.senders, shutdowns := s.shutdowns,
        output := s.output, panicked := s.panicked } ∧
      (∀ (bufferSize : Int) (s0 u : State) (acts : List Action),
        NewWorkerPool bufferSize = some s0 → run s0 acts = some u → u.panicked = false →
        (acts.count Action.addWorker : Int) < maxInt → u.wg < maxWaitGroup →
        ∃ v : State, AddWorker u = some ((acts.count Action.addWorker : Int) + 1, v)) ∧
      (∀ (bufferSize : Int) (s0 : State), NewWorkerPool bufferSize = some s0 →
        ∃ v : State, AddWorker s0 = some (1, v)) := by
  have hw : wrapInt (s.workerIDCounter + 1) = s.workerIDCounter + 1 :=
    wrapInt_of_range _ (by omega) (by omega)
  have hadd := AddWorker_of_room s (by omega)
  rw [hw] at hadd
  refine ⟨_, hadd, rfl, ?_, ?_, rfl, rfl, rfl, ?_, ?_⟩
  · simp [mapStore, List.lookup_cons]
  · intro k hk
    have hk2 : (k == s.workerIDCounter + 1) = false := by simpa using hk
    simp only [mapStore, List.lookup_cons, hk2]
    exact lookup_mapDelete_ne _ _ _ hk
  · intro bufferSize s0 u acts h0 hrun hp hcnt hroom
    have hs := NewWorkerPool_eq bufferSize s0 h0
    have hc0 : s0.workerIDCounter = 0 := by rw [hs]; rfl
    have hc := run_counter acts s0 u hrun hp (by omega) (by omega)
    rw [hc0, zero_add] at hc
    have hcr : (0 : Int) ≤ (acts.count Action.addWorker : Int) := Int.ofNat_nonneg _
    have hadd2 := AddWorker_of_room u (by omega)
    rw [hc, wrapInt_of_range _ (by unfold minInt; omega) (by omega)] at hadd2
    exact ⟨_, hadd2⟩
  · intro bufferSize s0 h0
    rw [NewWorkerPool_eq bufferSize s0 h0]
    exact ⟨_, AddWorker_of_room _ (by show (0 : Nat) < maxWaitGroup; decide)⟩

/-- Witness of C4: the first `AddWorker` on a pool of capacity 5 returns 1 and leaves one
worker outstanding. -/
theorem AddWorker_spec_witness :
    ∃ t : State, AddWorker (emptyPool 5) = some ((emptyPool 5).workerIDCounter + 1, t) ∧
      t.wg = 1 ∧ (emptyPool 5).workerIDCounter + 1 = 1 :=
  match AddWorker_spec (emptyPool 5) (by decide) (by decide) (by decide) with
  | ⟨t, h1, _, _, _, h5, _⟩ => ⟨t, h1, h5, by decide⟩

theorem adds_state (capacity : Nat) (n : Nat) (hn : n ≤ maxWaitGroup) :
    ∃ t, run (emptyPool capacity) (List.replicate n Action.addWorker) = some t ∧
      t.wg = n ∧ t.workerIDCounter = (n : Int) ∧ t.panicked = false := by
  induction n with
  | zero => exact ⟨emptyPool capacity, rfl, rfl, rfl, rfl⟩
  | succ n ih =>
    unfold maxWaitGroup at hn
    obtain ⟨t, h1, h2, h3, h4⟩ := ih (by unfold maxWaitGroup; omega)
    have hadd := AddWorker_of_room t (by rw [h2]; unfold maxWaitGroup; omega)
    have hw : wrapInt (t.workerIDCounter + 1) = (n : Int) + 1 := by
      rw [h3]
      exact wrapInt_of_range _ (by unfold minInt; omega) (by unfold maxInt; omega)
    rw [hw] at hadd
    have hstep := step_addWorker t h4
    rw [hadd] at hstep
    refine ⟨{ t with
        workerIDCounter := (n : Int) + 1
        workers := mapStore t.workers ((n : Int) + 1) t.goroutines.length
        wg := t.wg + 1
        goroutines := t.goroutines ++
          [{ ctx := t.goroutines.length, id := (n : Int) + 1, pc := PC.selecting }] },
      ?_, ?_, ?_, ?_⟩
    · rw [List.replicate_succ', run_append, h1]
      simp only [Option.some_bind, run, hstep]
    · show t.wg + 1 = n + 1
      rw [h2]
    · show (n : Int) + 1 = ((n + 1 : Nat) : Int)
      push_cast
      rfl
    · exact h4

theorem adds_full (n : Nat) (hn : n = maxWaitGroup) :
    ∃ t, run (emptyPool 5) (List.replicate n Action.addWorker) = some t ∧
      t.panicked = false ∧ t.wg = maxWaitGroup ∧ AddWorker t = none := by
  obtain ⟨t, h1, h2, _, h4⟩ := adds_state 5 n (by omega)
  exact ⟨t, h1, h4, by rw [h2, hn], AddWorker_of_full t (by omega)⟩

theorem churn_overflow (n : Nat) (hn : (n : Int) = maxInt) :
    ∃ t, run (emptyPool 5) (churn n) = some t ∧ t.panicked = false ∧
      t.workerIDCounter = maxInt ∧ t.wg = 0 ∧
      (AddWorker t).map Prod.fst = some minInt := by
  obtain ⟨t, h1, h2, h3, _, _, h6, _⟩ := churn_state 5 n (by omega)
  refine ⟨t, h1, h6, by rw [h2, hn], h3, ?_⟩
  rw [AddWorker_of_room t (by rw [h3]; decide)]
  simp only [Option.map_some']
  rw [h2, hn]
  decide

/-- Counterexample of C4: `AddWorker` does not return the counter plus one at every pool
state, nor `k` at every `k`-th call on a new pool. After 2^31 - 1 calls of `AddWorker` on
a pool of capacity 5, all of which return, the wait group is full and the next
`AddWorker` panics in `wp.wg.Add(1)`: it returns nothing. And after 2^63 - 1 rounds in
which a worker is added, removed and leaves, the counter is the largest `int`, no
worker is outstanding, and the next `AddWorker` returns the smallest `int`. -/
theorem AddWorker_counterexample :
    (∃ t, run (emptyPool 5) (List.replicate 2147483647 Action.addWorker) = some t ∧
      t.panicked = false ∧ t.wg = maxWaitGroup ∧ AddWorker t = none) ∧
    (∃ t, run (emptyPool 5) (churn 9223372036854775807) = some t ∧ t.panicked = false ∧
      t.workerIDCounter = maxInt ∧ t.wg = 0 ∧
      (AddWorker t).map Prod.fst = some minInt) :=
  ⟨adds_full 2147483647 rfl, churn_overflow 9223372036854775807 (by decide)⟩

/-! ## The invariant -/

theorem countP_set_of (p : Goroutine → Bool) (l : List Goroutine) (i : Nat) (g g2 : Goroutine)
    (h : l[i]? = some g) :
    (l.set i g2).countP p + (if p g then 1 else 0) = l.countP p + (if p g2 then 1 else 0) := by
  obtain ⟨hi, rfl⟩ := List.getElem?_eq_some.1 h
  rw [List.countP_set p l i g2 hi]
  have := List.boole_getElem_le_countP p l i hi
  omega

theorem live_iff (g : Goroutine) : live g = true ↔ g.pc ≠ PC.stopped := by
  simp [live]

theorem getElem?_concat_some (l : List Goroutine) (x g : Goroutine) (i : Nat)
    (h : (l ++ [x])[i]? = some g) : l[i]? = some g ∨ (i = l.length ∧ g = x) := by
  by_cases hlt : i < l.length
  · left
    rw [List.getElem?_append_left hlt] at h
    exact h
  · right
    have hi : i < (l ++ [x]).length := (List.getElem?_eq_some.1 h).1
    simp only [List.length_append, List.length_singleton] at hi
    have hil : i = l.length := by omega
    subst hil
    rw [List.getElem?_concat_length] at h
    exact ⟨rfl, (Option.some.inj h).symm⟩

theorem PoolInv_emptyPool (capacity : Nat) : PoolInv (emptyPool capacity) := by
  constructor <;> simp [emptyPool]

theorem PoolInv_congr (s t : State) (hi : PoolInv s)
    (hg : t.goroutines = s.goroutines) (hw : t.wg = s.wg)
    (hc : t.closed = s.closed) (hr : t.rootDone = s.rootDone) (hm : t.workers = s.workers)
    (hx : t.cancelled = s.cancelled) (hs : t.shutdowns = s.shutdowns) :
    PoolInv t := by
  obtain ⟨a1, a2, a3, a4, a5, a6, a7, a8, a9⟩ := hi
  constructor
  · rw [hg]; exact a1
  · rw [hg, hw]; exact a2
  · rw [hc, hr]; exact a3
  · rw [hg, hr, hm, hx]; exact a4
  · rw [hm]; exact a5
  · rw [hg, hx]; exact a6
  · rw [hg, hr, hx]; exact a7
  · rw [hr, hs]; exact a8
  · rw [hc, hs]; exact a9

theorem PoolInv_AddWorker (s : State) (r : Int × State) (hr : AddWorker s = some r)
    (hi : PoolInv s) : PoolInv r.2 := by
  obtain ⟨a1, a2, a3, a4, a5, a6, a7, a8, a9⟩ := hi
  rw [(AddWorker_some s r hr).2]
  dsimp only
  have hold : ∀ id h, (id, h) ∈ s.workers → h < s.goroutines.length := by
    intro id h hm
    obtain ⟨g, hg, _⟩ := a4 id h hm
    exact (List.getElem?_eq_some.1 hg).1
  constructor
  · intro i g hg
    rcases getElem?_concat_some _ _ _ _ hg with h1 | ⟨h1, h2⟩
    · exact a1 i g h1
    · rw [h2, h1]
  · simp only [List.countP_append, List.countP_cons, List.countP_nil, a2]
    simp [live]
  · exact a3
  · intro id h hm
    simp only [mapStore, List.mem_cons, mem_mapDelete] at hm
    rcases hm with heq | ⟨hm, _⟩
    · simp only [Prod.mk.injEq] at heq
      obtain ⟨rfl, rfl⟩ := heq
      refine ⟨_, List.getElem?_concat_length _ _, rfl, ?_⟩
      intro _ hc
      have := a6 _ hc
      omega
    · obtain ⟨g, hg, hid, hc⟩ := a4 id h hm
      refine ⟨g, ?_, hid, hc⟩
      rw [List.getElem?_append_left (hold id h hm)]
      exact hg
  · intro id1 id2 h h1 h2
    simp only [mapStore, List.mem_cons, mem_mapDelete, Prod.mk.injEq] at h1 h2
    rcases h1 with ⟨rfl, rfl⟩ | ⟨h1, _⟩
    · rcases h2 with ⟨rfl, _⟩ | ⟨h2, _⟩
      · rfl
      · have := hold _ _ h2
        omega
    · rcases h2 with ⟨rfl, rfl⟩ | ⟨h2, _⟩
      · have := hold _ _ h1
        omega
      · exact a5 id1 id2 h h1 h2
  · intro h hc
    have := a6 h hc
    simp only [List.length_append, List.length_singleton]
    omega
  · intro i g hg hp
    rcases getElem?_concat_some _ _ _ _ hg with h1 | ⟨_, h2⟩
    · exact a7 i g h1 hp
    · rw [h2] at hp
      simp at hp
  · exact a8
  · exact a9

theorem PoolInv_RemoveWorker (s : State) (workerID : Int) (hi : PoolInv s) :
    PoolInv (RemoveWorker s workerID).2 := by
  cases hl : s.workers.lookup workerID with
  | none =>
    rw [RemoveWorker_of_lookup_none s workerID hl]
    exact hi
  | some h0 =>
    rw [RemoveWorker_of_lookup_some s workerID h0 hl]
    have hmem := lookup_some_mem _ _ _ hl
    obtain ⟨a1, a2, a3, a4, a5, a6, a7, a8, a9⟩ := hi
    constructor
    · exact a1
    · exact a2
    · exact a3
    · intro id h hm
      simp only [mem_mapDelete] at hm
      obtain ⟨g, hg, hid, hc⟩ := a4 id h hm.1
      refine ⟨g, hg, hid, ?_⟩
      intro hr hin
      simp only [List.mem_cons] at hin
      rcases hin with rfl | hin
      · exact hm.2 (a5 id workerID h hm.1 hmem)
      · exact hc hr hin
    · intro id1 id2 h h1 h2
      simp only [mem_mapDelete] at h1 h2
      exact a5 id1 id2 h h1.1 h2.1
    · intro h hc
      simp only [List.mem_cons] at hc
      rcases hc with rfl | hc
      · obtain ⟨g, hg, _⟩ := a4 workerID h hmem
        exact (List.getElem?_eq_some.1 hg).1
      · exact a6 h hc
    · intro i g hg hp
      rcases a7 i g hg hp with h1 | h1
      · exact Or.inl h1
      · exact Or.inr (List.mem_cons_of_mem _ h1)
    · exact a8
    · exact a9

theorem getElem?_set_some (l : List Goroutine) (i j : Nat) (a x : Goroutine)
    (h : (l.set i a)[j]? = some x) : l[j]? = some x ∨ (j = i ∧ x = a) := by
  by_cases hij : i = j
  · subst hij
    have hlt : i < l.length := by
      have := (List.getElem?_eq_some.1 h).1
      simpa using this
    rw [List.getElem?_set_self hlt] at h
    exact Or.inr ⟨rfl, (Option.some.inj h).symm⟩
  · rw [List.getElem?_set_ne hij] at h
    exact Or.inl h

theorem PoolInv_setPC (s : State) (i : Nat) (g : Goroutine) (pc2 : PC)
    (hg : s.goroutines[i]? = some g) (hl : g.pc ≠ PC.stopped) (h2 : pc2 ≠ PC.stopped)
    (hi : PoolInv s) :
    PoolInv { s with goroutines := s.goroutines.set i { g with pc := pc2 } } := by
  obtain ⟨a1, a2, a3, a4, a5, a6, a7, a8, a9⟩ := hi
  have hlt : i < s.goroutines.length := (List.getElem?_eq_some.1 hg).1
  have hget : ∀ (j : Nat) (x : Goroutine),
      (s.goroutines.set i { g with pc := pc2 })[j]? = some x →
      (s.goroutines[j]? = some x) ∨ (j = i ∧ x = { g with pc := pc2 }) :=
    fun j x hx => getElem?_set_some _ _ _ _ _ hx
  constructor
  · intro j x hx
    rcases hget j x hx with h1 | ⟨h1, h3⟩
    · exact a1 j x h1
    · rw [h3, h1]
      exact a1 i g hg
  · have hc := countP_set_of live s.goroutines i g { g with pc := pc2 } hg
    have l1 : live g = true := (live_iff g).2 hl
    have l2 : live { g with pc := pc2 } = true := (live_iff _).2 h2
    rw [l1, l2] at hc
    simp only [if_true] at hc
    show s.wg = List.countP live (s.goroutines.set i { g with pc := pc2 })
    omega
  · exact a3
  · intro id h hm
    obtain ⟨x, hx, hid, hc⟩ := a4 id h hm
    by_cases hih : i = h
    · subst hih
      rw [hg] at hx
      refine ⟨{ g with pc := pc2 }, ?_, ?_, hc⟩
      · show (s.goroutines.set i { g with pc := pc2 })[i]? = _
        rw [List.getElem?_set, if_pos rfl, if_pos hlt]
      · rw [← hid, ← Option.some.inj hx]
    · refine ⟨x, ?_, hid, hc⟩
      show (s.goroutines.set i { g with pc := pc2 })[h]? = _
      rw [List.getElem?_set_ne hih]
      exact hx
  · exact a5
  · intro h hc
    show h < (s.goroutines.set i { g with pc := pc2 }).length
    rw [List.length_set]
    exact a6 h hc
  · intro j x hx hp
    rcases hget j x hx with h1 | ⟨_, h3⟩
    · exact a7 j x h1 hp
    · rw [h3] at hp
      exact absurd hp h2
  · exact a8
  · exact a9

theorem PoolInv_workerExit (s : State) (i : Nat) (g : Goroutine)
    (hg : s.goroutines[i]? = some g) (hl : g.pc ≠ PC.stopped)
    (hd : s.rootDone = true ∨ i ∈ s.cancelled) (hi : PoolInv s) :
    PoolInv (workerExit s i g) ∧ (workerExit s i g).panicked = s.panicked := by
  obtain ⟨a1, a2, a3, a4, a5, a6, a7, a8, a9⟩ := hi
  have hlt : i < s.goroutines.length := (List.getElem?_eq_some.1 hg).1
  have hc := countP_set_of live s.goroutines i g { g with pc := PC.stopped } hg
  have l1 : live g = true := (live_iff g).2 hl
  have l2 : live { g with pc := PC.stopped } = false := by simp [live]
  rw [l1, l2] at hc
  simp only [if_true] at hc
  have hwg : s.wg ≠ 0 := by
    rw [a2]
    intro h0
    rw [h0] at hc
    simp at hc
  unfold workerExit
  rw [if_neg hwg]
  refine ⟨?_, rfl⟩
  have hget : ∀ (j : Nat) (x : Goroutine),
      (s.goroutines.set i { g with pc := PC.stopped })[j]? = some x →
      (s.goroutines[j]? = some x) ∨ (j = i ∧ x = { g with pc := PC.stopped }) :=
    fun j x hx => getElem?_set_some _ _ _ _ _ hx
  constructor
  · intro j x hx
    rcases hget j x hx with h1 | ⟨h1, h3⟩
    · exact a1 j x h1
    · rw [h3, h1]
      exact a1 i g hg
  · show s.wg - 1 = List.countP live (s.goroutines.set i { g with pc := PC.stopped })
    simp only [Bool.false_eq_true, if_false, add_zero] at hc
    omega
  · exact a3
  · intro id h hm
    obtain ⟨x, hx, hid, hcc⟩ := a4 id h hm
    by_cases hih : i = h
    · subst hih
      rw [hg] at hx
      refine ⟨{ g with pc := PC.stopped }, ?_, ?_, hcc⟩
      · show (s.goroutines.set i { g with pc := PC.stopped })[i]? = _
        rw [List.getElem?_set, if_pos rfl, if_pos hlt]
      · rw [← hid, ← Option.some.inj hx]
    · refine ⟨x, ?_, hid, hcc⟩
      show (s.goroutines.set i { g with pc := PC.stopped })[h]? = _
      rw [List.getElem?_set_ne hih]
      exact hx
  · exact a5
  · intro h hcc
    show h < (s.goroutines.set i { g with pc := PC.stopped }).length
    rw [List.length_set]
    exact a6 h hcc
  · intro j x hx hp
    rcases hget j x hx with h1 | ⟨h1, _⟩
    · exact a7 j x h1 hp
    · rw [h1]
      exact hd
  · exact a8
  · exact a9

theorem PoolInv_deliver (s t : State) (data : String) (i : Nat)
    (h : deliver s data i = some t) (hi : PoolInv s) : PoolInv t := by
  unfold deliver at h
  split at h
  · simp at h
  · split at h
    · simp at h
    · rename_i g hg
      split at h
      · rename_i hpc
        rw [← Option.some.inj h]
        exact PoolInv_congr _ _
          (PoolInv_setPC s i g (PC.processing data) hg (by rw [hpc]; simp) (by simp) hi)
          rfl rfl rfl rfl rfl rfl rfl
      · simp at h

theorem PoolInv_worker (s t : State) (i : Nat) (pick : WorkerCase)
    (h : worker s i pick = some t) (hi : PoolInv s) : PoolInv t := by
  unfold worker at h
  split at h
  · simp at h
  · rename_i g hg
    split at h
    · simp at h
    · rename_i d hpc
      rw [← Option.some.inj h]
      exact PoolInv_setPC s i g PC.selecting hg (by rw [hpc]; simp) (by simp) hi
    · rename_i hpc
      have hlive : g.pc ≠ PC.stopped := by rw [hpc]; simp
      split at h
      · split at h
        · rename_i hd
          rw [← Option.some.inj h]
          refine (PoolInv_workerExit s i g hg hlive ?_ hi).1
          rw [hi.ctx_eq i g hg] at hd
          simpa [ctxDone] using hd
        · simp at h
      · split at h
        · rw [← Option.some.inj h]
          exact PoolInv_congr _ _
            (PoolInv_setPC s i g (PC.processing _) hg hlive (by simp) hi)
            rfl rfl rfl rfl rfl rfl rfl
        · split at h
          · rename_i hc
            rw [← Option.some.inj h]
            exact (PoolInv_workerExit s i g hg hlive (Or.inl (hi.closed_root hc)) hi).1
          · simp at h

theorem PoolInv_ShutdownCancel (s : State) (hi : PoolInv s) : PoolInv (ShutdownCancel s) := by
  obtain ⟨a1, a2, a3, a4, a5, a6, a7, a8, a9⟩ := hi
  unfold ShutdownCancel
  constructor
  · exact a1
  · exact a2
  · intro _; rfl
  · intro id h hm
    obtain ⟨g, hg, hid, _⟩ := a4 id h hm
    exact ⟨g, hg, hid, fun hr => by simp at hr⟩
  · exact a5
  · exact a6
  · intro i g hg hp
    exact Or.inl rfl
  · intro _; rfl
  · intro p hp hne
    simp only [List.mem_append, List.mem_singleton] at hp
    rcases hp with hp | hp
    · exact a9 p hp hne
    · exact absurd hp hne

theorem PoolInv_ShutdownClose (s t : State) (j : Nat) (h : ShutdownClose s j = some t)
    (hi : PoolInv s) : PoolInv t := by
  unfold ShutdownClose at h
  split at h
  · rename_i hj
    split at h
    · rw [← Option.some.inj h]
      exact PoolInv_congr _ _ hi rfl rfl rfl rfl rfl rfl rfl
    · rw [← Option.some.inj h]
      obtain ⟨a1, a2, a3, a4, a5, a6, a7, a8, a9⟩ := hi
      have hne : s.shutdowns ≠ [] := by
        intro he
        rw [he] at hj
        simp at hj
      constructor
      · exact a1
      · exact a2
      · intro _; exact a8 hne
      · exact a4
      · exact a5
      · exact a6
      · exact a7
      · intro _; exact a8 hne
      · intro _ _ _; rfl
  · simp at h

theorem PoolInv_ShutdownWait (s t : State) (j : Nat) (h : ShutdownWait s j = some t)
    (hi : PoolInv s) : PoolInv t ∧ s.wg = 0 ∧ t.goroutines = s.goroutines ∧
      t.shutdowns[j]? = some ShutdownPC.returned := by
  unfold ShutdownWait at h
  split at h
  · rename_i hj
    split at h
    · rename_i hwg
      rw [← Option.some.inj h]
      refine ⟨?_, hwg, rfl, List.getElem?_set_self (List.getElem?_eq_some.1 hj).1⟩
      obtain ⟨a1, a2, a3, a4, a5, a6, a7, a8, a9⟩ := hi
      have hmem : ShutdownPC.waiting ∈ s.shutdowns := List.mem_iff_getElem?.2 ⟨j, hj⟩
      have hcl : s.closed = true := a9 _ hmem (by simp)
      constructor
      · exact a1
      · exact a2
      · exact a3
      · exact a4
      · exact a5
      · exact a6
      · exact a7
      · intro _; exact a3 hcl
      · intro _ _ _; exact hcl
    · simp at h
  · simp at h

theorem PoolInv_SendWork (s t : State) (data : String) (pick : SelectCase)
    (h : SendWork s data pick = some t) (hi : PoolInv s) : PoolInv t := by
  unfold SendWork at h
  cases pick with
  | send =>
    simp only at h
    split at h
    · rw [← Option.some.inj h]
      exact PoolInv_congr _ _ hi rfl rfl rfl rfl rfl rfl rfl
    · split at h
      · rw [← Option.some.inj h]
        exact PoolInv_congr _ _ hi rfl rfl rfl rfl rfl rfl rfl
      · simp at h
  | done =>
    simp only at h
    split at h
    · rw [← Option.some.inj h]
      exact hi
    · simp at h
  | dflt =>
    simp only at h
    split at h
    · simp at h
    · rw [← Option.some.inj h]
      exact PoolInv_congr _ _ hi rfl rfl rfl rfl rfl rfl rfl

theorem PoolInv_SendWorkFallback (s t : State) (k : Nat)
    (h : SendWorkFallback s k = some t) (hi : PoolInv s) : PoolInv t := by
  unfold SendWorkFallback at h
  split at h
  · simp at h
  · split at h
    · rw [← Option.some.inj h]
      exact PoolInv_congr _ _ hi rfl rfl rfl rfl rfl rfl rfl
    · split at h
      · rw [← Option.some.inj h]
        exact PoolInv_congr _ _ hi rfl rfl rfl rfl rfl rfl rfl
      · simp at h

theorem PoolInv_SendWorkFallbackDirect (s t : State) (k i : Nat)
    (h : SendWorkFallbackDirect s k i = some t) (hi : PoolInv s) : PoolInv t := by
  unfold SendWorkFallbackDirect at h
  split at h
  · simp at h
  · rename_i data _
    cases hd : deliver s data i with
    | none => rw [hd] at h; simp at h
    | some u =>
      rw [hd] at h
      simp only [Option.map_some'] at h
      rw [← Option.some.inj h]
      exact PoolInv_congr _ _ (PoolInv_deliver s u data i hd hi)
        rfl rfl rfl rfl rfl rfl rfl

theorem PoolInv_step (s t : State) (a : Action) (h : step s a = some t) (hi : PoolInv s) :
    PoolInv t := by
  unfold step at h
  split at h
  · simp at h
  · cases a with
    | addWorker =>
      simp only at h
      split at h
      · rename_i r hr
        rw [← Option.some.inj h]
        exact PoolInv_AddWorker s r hr hi
      · rw [← Option.some.inj h]
        exact PoolInv_congr _ _ hi rfl rfl rfl rfl rfl rfl rfl
    | removeWorker workerID =>
      simp only at h
      rw [← Option.some.inj h]
      exact PoolInv_RemoveWorker s workerID hi
    | sendWork data pick => exact PoolInv_SendWork s t data pick h hi
    | sendDirect data i => exact PoolInv_deliver s t data i h hi
    | fallback k => exact PoolInv_SendWorkFallback s t k h hi
    | fallbackDirect k i => exact PoolInv_SendWorkFallbackDirect s t k i h hi
    | shutdown =>
      simp only at h
      rw [← Option.some.inj h]
      exact PoolInv_ShutdownCancel s hi
    | shutdownClose j => exact PoolInv_ShutdownClose s t j h hi
    | shutdownWait j => exact (PoolInv_ShutdownWait s t j h hi).1
    | worker i pick => exact PoolInv_worker s t i pick h hi

theorem PoolInv_run (acts : List Action) : ∀ (s t : State), run s acts = some t →
    PoolInv s → PoolInv t := by
  induction acts with
  | nil =>
    intro s t h hi
    simp only [run] at h
    rw [← Option.some.inj h]
    exact hi
  | cons a rest ih =>
    intro s t h hi
    simp only [run] at h
    cases hs : step s a with
    | none => rw [hs] at h; simp at h
    | some u =>
      rw [hs] at h
      exact ih u t h (PoolInv_step s u a hs hi)

theorem PoolInv_of_Reachable (s : State) (h : Reachable s) : PoolInv s := by
  obtain ⟨bufferSize, s0, acts, h0, hr⟩ := h
  rw [NewWorkerPool_eq bufferSize s0 h0] at hr
  exact PoolInv_run acts _ s hr (PoolInv_emptyPool _)

/-! ## Waiting for the workers -/

theorem Reachable_runFrom (capacity : Nat) (acts : List Action)
    (h : (run (emptyPool capacity) acts).isSome = true) : Reachable (runFrom capacity acts) := by
  refine ⟨(capacity : Int), emptyPool capacity, acts, ?_, ?_⟩
  · unfold NewWorkerPool
    rw [if_neg (by omega)]
    simp
  · unfold runFrom
    cases hr : run (emptyPool capacity) acts with
    | none => rw [hr] at h; simp at h
    | some t => rfl

theorem worker_moves (s t : State) (i : Nat) (pick : WorkerCase) (hi : PoolInv s)
    (h : worker s i pick = some t) :
    ∃ g g2 : Goroutine, s.goroutines[i]? = some g ∧ g.pc ≠ PC.stopped ∧
      t.goroutines[i]? = some g2 ∧ t.panicked = s.panicked ∧
      ((g2.pc = PC.stopped ∧ t.wg + 1 = s.wg) ∨ (g2.pc ≠ PC.stopped ∧ t.wg = s.wg)) := by
  have hexit : ∀ g : Goroutine, s.goroutines[i]? = some g → g.pc ≠ PC.stopped →
      (workerExit s i g).goroutines[i]? = some { g with pc := PC.stopped } ∧
      (workerExit s i g).panicked = s.panicked ∧ (workerExit s i g).wg + 1 = s.wg := by
    intro g hg hl
    have hlt : i < s.goroutines.length := (List.getElem?_eq_some.1 hg).1
    have hc := countP_set_of live s.goroutines i g { g with pc := PC.stopped } hg
    have l1 : live g = true := (live_iff g).2 hl
    have l2 : live { g with pc := PC.stopped } = false := by simp [live]
    rw [l1, l2] at hc
    simp only [if_true] at hc
    have hwg : s.wg ≠ 0 := by
      rw [hi.wg_eq]
      intro h0
      rw [h0] at hc
      simp at hc
    unfold workerExit
    rw [if_neg hwg]
    refine ⟨?_, rfl, ?_⟩
    · show (s.goroutines.set i { g with pc := PC.stopped })[i]? = _
      rw [List.getElem?_set_self hlt]
    · show s.wg - 1 + 1 = s.wg
      omega
  unfold worker at h
  split at h
  · simp at h
  · rename_i g hg
    have hlt : i < s.goroutines.length := (List.getElem?_eq_some.1 hg).1
    split at h
    · simp at h
    · rename_i d hpc
      rw [← Option.some.inj h]
      refine ⟨g, { g with pc := PC.selecting }, hg, by rw [hpc]; simp, ?_, rfl,
        Or.inr ⟨by simp, rfl⟩⟩
      show (s.goroutines.set i { g with pc := PC.selecting })[i]? = _
      rw [List.getElem?_set_self hlt]
    · rename_i hpc
      have hlive : g.pc ≠ PC.stopped := by rw [hpc]; simp
      obtain ⟨e1, e2, e3⟩ := hexit g hg hlive
      split at h
      · split at h
        · rw [← Option.some.inj h]
          exact ⟨g, _, hg, hlive, e1, e2, Or.inl ⟨rfl, e3⟩⟩
        · simp at h
      · split at h
        · rename_i data rest _
          rw [← Option.some.inj h]
          refine ⟨g, { g with pc := PC.processing data }, hg, hlive, ?_, rfl,
            Or.inr ⟨by simp, rfl⟩⟩
          show (s.goroutines.set i { g with pc := PC.processing data })[i]? = _
          rw [List.getElem?_set_self hlt]
        · split at h
          · rw [← Option.some.inj h]
            exact ⟨g, _, hg, hlive, e1, e2, Or.inl ⟨rfl, e3⟩⟩
          · simp at h

/-- C8: in every state a schedule reaches, the wait-group counter equals the number of
worker executions started by `AddWorker` that have not returned; a worker step either
keeps the worker running and the counter as it is, or stops the worker and lowers the
counter by exactly one, a stopped worker never moves again, and no worker step panics;
and when `wg.Wait()` of a `Shutdown` call returns, that call has returned and every
worker execution started so far has returned. -/
theorem Shutdown_waits_for_workers (s : State) (h : Reachable s) :
    s.wg = s.goroutines.countP live ∧
    (∀ (i : Nat) (pick : WorkerCase) (t : State), step s (Action.worker i pick) = some t →
      ∃ g g2 : Goroutine, s.goroutines[i]? = some g ∧ g.pc ≠ PC.stopped ∧
        t.goroutines[i]? = some g2 ∧ t.panicked = false ∧
        ((g2.pc = PC.stopped ∧ t.wg + 1 = s.wg) ∨ (g2.pc ≠ PC.stopped ∧ t.wg = s.wg))) ∧
    (∀ (j : Nat) (t : State), step s (Action.shutdownWait j) = some t →
      t.shutdowns[j]? = some ShutdownPC.returned ∧
      (∀ g ∈ s.goroutines, g.pc = PC.stopped) ∧
      (∀ g ∈ t.goroutines, g.pc = PC.stopped)) := by
  have hi := PoolInv_of_Reachable s h
  refine ⟨hi.wg_eq, ?_, ?_⟩
  · intro i pick t ht
    unfold step at ht
    split at ht
    · simp at ht
    · rename_i hp
      obtain ⟨g, g2, h1, h2, h3, h4, h5⟩ := worker_moves s t i pick hi ht
      refine ⟨g, g2, h1, h2, h3, ?_, h5⟩
      rw [h4]
      simpa using hp
  · intro j t ht
    unfold step at ht
    split at ht
    · simp at ht
    · simp only at ht
      obtain ⟨_, hwg, hgs, hret⟩ := PoolInv_ShutdownWait s t j ht hi
      have hall : ∀ g ∈ s.goroutines, g.pc = PC.stopped := by
        intro g hg
        have hz : s.goroutines.countP live = 0 := by rw [← hi.wg_eq, hwg]
        rw [List.countP_eq_zero] at hz
        have := hz g hg
        by_contra hne
        exact this ((live_iff g).2 hne)
      exact ⟨hret, hall, by rw [hgs]; exact hall⟩

/-- Witness of C8: two workers are added to a pool of capacity 5, `Shutdown` cancels and
closes, one worker leaves by its cancelled scope and the other by the closed channel;
then the counter is 0, `wg.Wait()` returns and both workers have returned. -/
theorem Shutdown_waits_for_workers_witness :
    (runFrom 5 [Action.addWorker, Action.addWorker, Action.shutdown, Action.shutdownClose 0,
      Action.worker 0 WorkerCase.done, Action.worker 1 WorkerCase.recv]).wg = 0 ∧
    (∀ g ∈ (runFrom 5 [Action.addWorker, Action.addWorker, Action.shutdown,
      Action.shutdownClose 0, Action.worker 0 WorkerCase.done, Action.worker 1 WorkerCase.recv,
      Action.shutdownWait 0]).goroutines, g.pc = PC.stopped) :=
  ⟨by decide,
   ((Shutdown_waits_for_workers
      (runFrom 5 [Action.addWorker, Action.addWorker, Action.shutdown, Action.shutdownClose 0,
        Action.worker 0 WorkerCase.done, Action.worker 1 WorkerCase.recv])
      (Reachable_runFrom 5 _ (by decide))).2.2 0
      (runFrom 5 [Action.addWorker, Action.addWorker, Action.shutdown,
        Action.shutdownClose 0, Action.worker 0 WorkerCase.done, Action.worker 1 WorkerCase.recv,
        Action.shutdownWait 0])
      (by decide)).2.2⟩

/-! ## Registry and live workers -/

theorem filter_ctx_live (l : List Goroutine) : ∀ (k h : Nat) (g : Goroutine),
    (∀ (i : Nat) (x : Goroutine), l[i]? = some x → x.ctx = k + i) →
    l[h]? = some g → live g = true →
    l.filter (fun x => x.ctx == k + h && live x) = [g] := by
  induction l with
  | nil => intro k h g _ hg; simp at hg
  | cons a l ih =>
    intro k h g hctx hg hl
    have htail : ∀ (i : Nat) (x : Goroutine), l[i]? = some x → x.ctx = (k + 1) + i := by
      intro i x hx
      have := hctx (i + 1) x (by simpa using hx)
      omega
    cases h with
    | zero =>
      simp only [List.getElem?_cons_zero, Option.some.injEq] at hg
      subst hg
      have ha : a.ctx = k := by simpa using hctx 0 a (by simp)
      have hrest : l.filter (fun x => x.ctx == k + 0 && live x) = [] := by
        rw [List.filter_eq_nil_iff]
        intro x hx
        obtain ⟨i, hi⟩ := List.mem_iff_getElem?.1 hx
        have := htail i x hi
        simp only [Nat.add_zero, Bool.and_eq_true, beq_iff_eq, not_and]
        intro hk
        omega
      rw [List.filter_cons, hrest]
      simp [ha, hl]
    | succ h =>
      have ha : a.ctx = k := by simpa using hctx 0 a (by simp)
      have hg2 : l[h]? = some g := by simpa using hg
      have := ih (k + 1) h g htail hg2 hl
      have hk : k + (h + 1) = k + 1 + h := by omega
      rw [List.filter_cons, hk, this]
      have hne : (a.ctx == k + 1 + h) = false := by
        rw [ha]
        simp
        omega
      simp [hne]

/-- C9, amended: in every state a schedule reaches in which the root scope has not been
cancelled (no `Shutdown` call has begun), every identity that is a key of `workers` has
exactly one live worker execution bound to its cancel handle, that execution carries the
identity, and its scope is not done. -/
theorem registry_live_before_Shutdown (s : State) (h : Reachable s)
    (hr : s.rootDone = false) (id : Int) (hk : id ∈ keys s) :
    ∃ (handle : Nat) (g : Goroutine), s.workers.lookup id = some handle ∧
      boundLive s handle = [g] ∧ g.id = id ∧ g.pc ≠ PC.stopped ∧
      ctxDone s handle = false := by
  have hi := PoolInv_of_Reachable s h
  rw [mem_keys_iff] at hk
  obtain ⟨handle, hl⟩ := hk
  obtain ⟨g, hg, hid, hc⟩ := hi.entry id handle (lookup_some_mem _ _ _ hl)
  have hnc := hc hr
  have hlive : g.pc ≠ PC.stopped := by
    intro hp
    rcases hi.stopped_done handle g hg hp with h1 | h1
    · rw [hr] at h1
      simp at h1
    · exact hnc h1
  refine ⟨handle, g, hl, ?_, hid, hlive, ?_⟩
  · have := filter_ctx_live s.goroutines 0 handle g
      (fun i x hx => by rw [hi.ctx_eq i x hx]; omega) hg ((live_iff g).2 hlive)
    simpa [boundLive] using this
  · simp [ctxDone, hr, hnc]

/-- Witness of C9: a pool of capacity 5 with two workers, the first processing an item
and the second removed; identity 1 is a key and the root scope is not cancelled. -/
theorem registry_live_before_Shutdown_witness :
    ∃ (handle : Nat) (g : Goroutine),
      (runFrom 5 [Action.addWorker, Action.addWorker, Action.sendWork "task1" SelectCase.send,
        Action.worker 0 WorkerCase.recv, Action.removeWorker 2,
        Action.worker 1 WorkerCase.done]).workers.lookup 1 = some handle ∧
      boundLive (runFrom 5 [Action.addWorker, Action.addWorker,
        Action.sendWork "task1" SelectCase.send, Action.worker 0 WorkerCase.recv,
        Action.removeWorker 2, Action.worker 1 WorkerCase.done]) handle = [g] ∧
      g.id = 1 ∧ g.pc ≠ PC.stopped ∧
      ctxDone (runFrom 5 [Action.addWorker, Action.addWorker,
        Action.sendWork "task1" SelectCase.send, Action.worker 0 WorkerCase.recv,
        Action.removeWorker 2, Action.worker 1 WorkerCase.done]) handle = false :=
  registry_live_before_Shutdown
    (runFrom 5 [Action.addWorker, Action.addWorker, Action.sendWork "task1" SelectCase.send,
      Action.worker 0 WorkerCase.recv, Action.removeWorker 2, Action.worker 1 WorkerCase.done])
    (Reachable_runFrom 5 _ (by decide)) (by decide) 1 (by decide)

/-- Counterexample of C9: a pool of capacity 5 gets one worker, `Shutdown` cancels and
closes, the worker returns because the channel is closed, and `Shutdown` returns. The
schedule is enabled, identity 1 is still a key of `workers`, bound to handle 0, and no
live worker execution is bound to that handle: the only one has returned. -/
theorem registry_after_Shutdown_counterexample :
    (run (emptyPool 5) [Action.addWorker, Action.shutdown, Action.shutdownClose 0,
      Action.worker 0 WorkerCase.recv, Action.shutdownWait 0]).isSome = true ∧
    keys (runFrom 5 [Action.addWorker, Action.shutdown, Action.shutdownClose 0,
      Action.worker 0 WorkerCase.recv, Action.shutdownWait 0]) = [1] ∧
    (runFrom 5 [Action.addWorker, Action.shutdown, Action.shutdownClose 0,
      Action.worker 0 WorkerCase.recv, Action.shutdownWait 0]).workers.lookup 1 = some 0 ∧
    boundLive (runFrom 5 [Action.addWorker, Action.shutdown, Action.shutdownClose 0,
      Action.worker 0 WorkerCase.recv, Action.shutdownWait 0]) 0 = [] ∧
    (runFrom 5 [Action.addWorker, Action.shutdown, Action.shutdownClose 0,
      Action.worker 0 WorkerCase.recv, Action.shutdownWait 0]).goroutines =
      [{ ctx := 0, id := 1, pc := PC.stopped }] ∧
    (runFrom 5 [Action.addWorker, Action.shutdown, Action.shutdownClose 0,
      Action.worker 0 WorkerCase.recv, Action.shutdownWait 0]).shutdowns =
      [ShutdownPC.returned] ∧
    (runFrom 5 [Action.addWorker, Action.shutdown, Action.shutdownClose 0,
      Action.worker 0 WorkerCase.recv, Action.shutdownWait 0]).panicked = false := by
  decide

/-! ## Shutdown twice -/

theorem step_closed (s t : State) (a : Action) (h : step s a = some t) :
    t.closed = s.closed ∨
      (s.closed = false ∧ t.closed = true ∧ ∃ j, a = Action.shutdownClose j) := by
  unfold step at h
  split at h
  · simp at h
  · cases a with
    | addWorker =>
      simp only at h
      split at h
      · rename_i r hr
        rw [← Option.some.inj h, (AddWorker_some s r hr).2]
        exact Or.inl rfl
      · rw [← Option.some.inj h]
        exact Or.inl rfl
    | removeWorker workerID =>
      simp only at h
      rw [← Option.some.inj h]
      left
      unfold RemoveWorker
      cases s.workers.lookup workerID <;> rfl
    | sendWork data pick =>
      simp only at h
      left
      unfold SendWork at h
      cases pick with
      | send =>
        simp only at h
        split at h
        · rw [← Option.some.inj h]
        · split at h
          · rw [← Option.some.inj h]
          · simp at h
      | done =>
        simp only at h
        split at h
        · rw [← Option.some.inj h]
        · simp at h
      | dflt =>
        simp only at h
        split at h
        · simp at h
        · rw [← Option.some.inj h]
    | sendDirect data i =>
      simp only at h
      left
      unfold deliver at h
      split at h
      · simp at h
      · split at h
        · simp at h
        · split at h
          · rw [← Option.some.inj h]
          · simp at h
    | fallback k =>
      simp only at h
      left
      unfold SendWorkFallback at h
      split at h
      · simp at h
      · split at h
        · rw [← Option.some.inj h]
        · split at h
          · rw [← Option.some.inj h]
          · simp at h
    | fallbackDirect k i =>
      simp only at h
      left
      unfold SendWorkFallbackDirect at h
      split at h
      · simp at h
      · rename_i data _
        cases hd : deliver s data i with
        | none => rw [hd] at h; simp at h
        | some u =>
          rw [hd] at h
          simp only [Option.map_some'] at h
          rw [← Option.some.inj h]
          unfold deliver at hd
          split at hd
          · simp at hd
          · split at hd
            · simp at hd
            · split at hd
              · rw [← Option.some.inj hd]
              · simp at hd
    | shutdown =>
      simp only at h
      rw [← Option.some.inj h]
      exact Or.inl rfl
    | shutdownClose j =>
      simp only at h
      unfold ShutdownClose at h
      split at h
      · split at h
        · rw [← Option.some.inj h]
          exact Or.inl rfl
        · rename_i hc
          rw [← Option.some.inj h]
          exact Or.inr ⟨by simpa using hc, rfl, j, rfl⟩
      · simp at h
    | shutdownWait j =>
      simp only at h
      left
      unfold ShutdownWait at h
      split at h
      · split at h
        · rw [← Option.some.inj h]
        · simp at h
      · simp at h
    | worker i pick =>
      simp only at h
      left
      have hx : ∀ g : Goroutine, (workerExit s i g).closed = s.closed := by
        intro g
        unfold workerExit
        split <;> rfl
      unfold worker at h
      split at h
      · simp at h
      · split at h
        · simp at h
        · rw [← Option.some.inj h]
        · split at h
          · split at h
            · rw [← Option.some.inj h]
              exact hx _
            · simp at h
          · split at h
            · rw [← Option.some.inj h]
            · split at h
              · rw [← Option.some.inj h]
                exact hx _
              · simp at h

/-- C6, amended: `Shutdown` is not safe to call twice. In every state a schedule reaches
in which a first `Shutdown` call has returned, a second call panics in
`close(wp.inputChan)`, before it waits: its `rootCancel()` changes nothing (the root scope
is cancelled already), the channel stays closed and is not closed again, and map, counter,
wait group and goroutines are untouched. Over the whole life of a pool the channel goes
from open to closed by one `close` step only, and no step reopens it. -/
theorem Shutdown_second_call_panics (s : State) (h : Reachable s)
    (hret : ShutdownPC.returned ∈ s.shutdowns) :
    s.closed = true ∧ s.rootDone = true ∧
    Shutdown s =
      some { s with shutdowns := s.shutdowns ++ [ShutdownPC.closing], panicked := true } ∧
    (s.panicked = false →
      run s [Action.shutdown, Action.shutdownClose s.shutdowns.length] =
        some { s with shutdowns := s.shutdowns ++ [ShutdownPC.closing], panicked := true }) ∧
    (∀ (a : Action) (t : State), step s a = some t → t.closed = true) ∧
    (∀ (u t : State) (a : Action), step u a = some t → t.closed = u.closed ∨
      (u.closed = false ∧ t.closed = true ∧ ∃ j, a = Action.shutdownClose j)) := by
  have hi := PoolInv_of_Reachable s h
  have hc : s.closed = true := hi.shut_closed _ hret (by simp)
  have hr : s.rootDone = true := hi.closed_root hc
  have hcancel : ShutdownCancel s =
      { s with shutdowns := s.shutdowns ++ [ShutdownPC.closing] } := by
    unfold ShutdownCancel
    rw [← hr]
  have hclose : ShutdownClose (ShutdownCancel s) s.shutdowns.length =
      some { s with shutdowns := s.shutdowns ++ [ShutdownPC.closing], panicked := true } := by
    rw [hcancel]
    unfold ShutdownClose
    simp [hc]
  refine ⟨hc, hr, ?_, ?_, ?_, fun u t a hs => step_closed u t a hs⟩
  · unfold Shutdown
    simp only [hclose]
    simp
  · intro hp
    simp only [run, step, hp, Bool.false_eq_true, if_false, Option.some_bind]
    have hp2 : (ShutdownCancel s).panicked = false := by rw [hcancel]; exact hp
    simp [hp2, hclose]
  · intro a t hs
    rcases step_closed s t a hs with h1 | ⟨h1, _⟩
    · rw [h1, hc]
    · rw [hc] at h1
      simp at h1

/-- Witness of C6: on a pool of capacity 5 with no worker a first `Shutdown` returns; the
second one panics. -/
theorem Shutdown_second_call_panics_witness :
    ShutdownPC.returned ∈ (runFrom 5 [Action.shutdown, Action.shutdownClose 0,
      Action.shutdownWait 0]).shutdowns ∧
    Shutdown (runFrom 5 [Action.shutdown, Action.shutdownClose 0, Action.shutdownWait 0]) =
      some { runFrom 5 [Action.shutdown, Action.shutdownClose 0, Action.shutdownWait 0] with
        shutdowns := [ShutdownPC.returned, ShutdownPC.closing], panicked := true } :=
  ⟨by decide,
   (Shutdown_second_call_panics
      (runFrom 5 [Action.shutdown, Action.shutdownClose 0, Action.shutdownWait 0])
      (Reachable_runFrom 5 _ (by decide)) (by decide)).2.2.1⟩

/-- Counterexample of C6: on a pool of capacity 5 with no worker, the first `Shutdown`
returns without a panic and leaves the channel closed; the second `Shutdown` panics. -/
theorem Shutdown_twice_counterexample :
    (Shutdown (emptyPool 5)).map (fun t => (t.closed, t.shutdowns, t.panicked)) =
      some (true, [ShutdownPC.returned], false) ∧
    ((Shutdown (emptyPool 5)).bind Shutdown).map (fun t => t.panicked) = some true ∧
    (run (emptyPool 5) [Action.shutdown, Action.shutdownClose 0, Action.shutdownWait 0,
      Action.shutdown, Action.shutdownClose 1]).map (fun t => t.panicked) = some true := by
  decide

/-! ## Sending to a pool that shuts down -/

/-- C5, the code at the failing inputs. After `Shutdown` has returned on a pool of
capacity 5 (root scope cancelled, channel closed, no panic so far), the `select` of
`SendWork("task")` has two ready cases: taking `<-wp.rootCtx.Done()` drops the item, taking
the send panics (send on a closed channel). And while `Shutdown` is between
`rootCancel()` and `close`, the root scope is cancelled and the send case is ready as
well: taking it puts the item into the queue. -/
theorem SendWork_after_rootCancel_failing :
    (runFrom 5 [Action.shutdown, Action.shutdownClose 0, Action.shutdownWait 0]).rootDone
      = true ∧
    (runFrom 5 [Action.shutdown, Action.shutdownClose 0, Action.shutdownWait 0]).closed
      = true ∧
    (runFrom 5 [Action.shutdown, Action.shutdownClose 0, Action.shutdownWait 0]).panicked
      = false ∧
    SendWork (runFrom 5 [Action.shutdown, Action.shutdownClose 0, Action.shutdownWait 0])
      "task" SelectCase.done =
      some (runFrom 5 [Action.shutdown, Action.shutdownClose 0, Action.shutdownWait 0]) ∧
    SendWork (runFrom 5 [Action.shutdown, Action.shutdownClose 0, Action.shutdownWait 0])
      "task" SelectCase.send =
      some { runFrom 5 [Action.shutdown, Action.shutdownClose 0, Action.shutdownWait 0] with
        panicked := true } ∧
    (runFrom 5 [Action.shutdown]).rootDone = true ∧
    (runFrom 5 [Action.shutdown]).closed = false ∧
    SendWork (runFrom 5 [Action.shutdown]) "task" SelectCase.send =
      some { runFrom 5 [Action.shutdown] with inputChan := ["task"] } := by
  decide

/-! ## Removal and delivery -/

/-- C7, the code at the failing input. On a pool of capacity 5, worker 1 is added,
receives "task1" and is busy with it; `RemoveWorker(1)` returns true and cancels its
scope; then `SendWork("task2")` puts "task2" into the queue; the worker comes back to its
`select`, where both the receive and `<-ctx.Done()` are ready; when the receive is taken,
worker 1 prints "task2": an item sent after the removal is processed under identity 1. -/
theorem removed_worker_processes_later_item :
    (RemoveWorker (runFrom 5 [Action.addWorker, Action.sendWork "task1" SelectCase.send,
      Action.worker 0 WorkerCase.recv]) 1).1 = true ∧
    (runFrom 5 [Action.addWorker, Action.sendWork "task1" SelectCase.send,
      Action.worker 0 WorkerCase.recv, Action.removeWorker 1]).output = [(1, "task1")] ∧
    (runFrom 5 [Action.addWorker, Action.sendWork "task1" SelectCase.send,
      Action.worker 0 WorkerCase.recv, Action.removeWorker 1]).inputChan = [] ∧
    ctxDone (runFrom 5 [Action.addWorker, Action.sendWork "task1" SelectCase.send,
      Action.worker 0 WorkerCase.recv, Action.removeWorker 1]) 0 = true ∧
    (run (emptyPool 5) [Action.addWorker, Action.sendWork "task1" SelectCase.send,
      Action.worker 0 WorkerCase.recv, Action.removeWorker 1,
      Action.sendWork "task2" SelectCase.send, Action.worker 0 WorkerCase.recv,
      Action.worker 0 WorkerCase.done]).isSome = true ∧
    (run (emptyPool 5) [Action.addWorker, Action.sendWork "task1" SelectCase.send,
      Action.worker 0 WorkerCase.recv, Action.removeWorker 1,
      Action.sendWork "task2" SelectCase.send, Action.worker 0 WorkerCase.recv,
      Action.worker 0 WorkerCase.recv]).map (fun t => (t.output, t.panicked)) =
      some ([(1, "task1"), (1, "task2")], false) := by
  decide

/-! ## The blocking send of `SendWork` -/

theorem deliver_spec (s t : State) (data : String) (i : Nat) (h : deliver s data i = some t) :
    ∃ g : Goroutine, s.goroutines[i]? = some g ∧ g.pc = PC.selecting ∧
      t = { s with
        goroutines := s.goroutines.set i { g with pc := PC.processing data }
        output := s.output ++ [(g.id, data)] } := by
  unfold deliver at h
  split at h
  · simp at h
  · split at h
    · simp at h
    · rename_i g hg
      split at h
      · rename_i hpc
        exact ⟨g, hg, hpc, (Option.some.inj h).symm⟩
      · simp at h

theorem workerExit_senders (s : State) (i : Nat) (g : Goroutine) :
    (workerExit s i g).senders = s.senders := by
  unfold workerExit
  split <;> rfl

/-- What a step does to the calls blocked in the send of `SendWork`: nothing, or one more
call blocks, or one of them completes its send into the queue, or one of them hands its
item to a worker that waits in its `select`. -/
theorem step_senders (s t : State) (a : Action) (h : step s a = some t) :
    t.senders = s.senders ∨
    (∃ data, a = Action.sendWork data SelectCase.dflt ∧ t.senders = s.senders ++ [data]) ∨
    (∃ k data, a = Action.fallback k ∧ s.senders[k]? = some data ∧
      t.senders = s.senders.eraseIdx k ∧ t.inputChan = s.inputChan ++ [data]) ∨
    (∃ k i data g, a = Action.fallbackDirect k i ∧ s.senders[k]? = some data ∧
      t.senders = s.senders.eraseIdx k ∧ s.goroutines[i]? = some g ∧
      t.goroutines[i]? = some { g with pc := PC.processing data } ∧
      t.output = s.output ++ [(g.id, data)]) := by
  unfold step at h
  split at h
  · simp at h
  · cases a with
    | addWorker =>
      simp only at h
      left
      split at h
      · rename_i r hr
        rw [← Option.some.inj h, (AddWorker_some s r hr).2]
      · rw [← Option.some.inj h]
    | removeWorker workerID =>
      simp only at h
      left
      rw [← Option.some.inj h]
      unfold RemoveWorker
      cases s.workers.lookup workerID <;> rfl
    | sendWork data pick =>
      simp only at h
      unfold SendWork at h
      cases pick with
      | send =>
        simp only at h
        left
        split at h
        · rw [← Option.some.inj h]
        · split at h
          · rw [← Option.some.inj h]
          · simp at h
      | done =>
        simp only at h
        left
        split at h
        · rw [← Option.some.inj h]
        · simp at h
      | dflt =>
        simp only at h
        split at h
        · simp at h
        · rw [← Option.some.inj h]
          exact Or.inr (Or.inl ⟨data, rfl, rfl⟩)
    | sendDirect data i =>
      simp only at h
      left
      obtain ⟨g, _, _, ht⟩ := deliver_spec s t data i h
      rw [ht]
    | fallback k =>
      simp only at h
      unfold SendWorkFallback at h
      split at h
      · simp at h
      · rename_i data hk
        split at h
        · left
          rw [← Option.some.inj h]
        · split at h
          · rw [← Option.some.inj h]
            exact Or.inr (Or.inr (Or.inl ⟨k, data, rfl, hk, rfl, rfl⟩))
          · simp at h
    | fallbackDirect k i =>
      simp only at h
      unfold SendWorkFallbackDirect at h
      split at h
      · simp at h
      · rename_i data hk
        cases hd : deliver s data i with
        | none => rw [hd] at h; simp at h
        | some u =>
          rw [hd] at h
          simp only [Option.map_some'] at h
          obtain ⟨g, hg, _, hu⟩ := deliver_spec s u data i hd
          refine Or.inr (Or.inr (Or.inr ⟨k, i, data, g, rfl, hk, ?_, hg, ?_, ?_⟩))
          · rw [← Option.some.inj h, hu]
          · rw [← Option.some.inj h, hu]
            show (s.goroutines.set i { g with pc := PC.processing data })[i]? = _
            rw [List.getElem?_set_self (List.getElem?_eq_some.1 hg).1]
          · rw [← Option.some.inj h, hu]
    | shutdown =>
      simp only at h
      left
      rw [← Option.some.inj h]
      rfl
    | shutdownClose j =>
      simp only at h
      left
      unfold ShutdownClose at h
      split at h
      · split at h
        · rw [← Option.some.inj h]
        · rw [← Option.some.inj h]
      · simp at h
    | shutdownWait j =>
      simp only at h
      left
      unfold ShutdownWait at h
      split at h
      · split at h
        · rw [← Option.some.inj h]
        · simp at h
      · simp at h
    | worker i pick =>
      simp only at h
      left
      unfold worker at h
      split at h
      · simp at h
      · split at h
        · simp at h
        · rw [← Option.some.inj h]
        · split at h
          · split at h
            · rw [← Option.some.inj h]
              exact workerExit_senders _ _ _
            · simp at h
          · split at h
            · rw [← Option.some.inj h]
            · split at h
              · rw [← Option.some.inj h]
                exact workerExit_senders _ _ _
              · simp at h

theorem SendWorkFallback_full (u : State) (j : Nat) (hopen : u.closed = false)
    (hfull : u.cap ≤ u.inputChan.length) : SendWorkFallback u j = none := by
  unfold SendWorkFallback
  split
  · rfl
  · rw [if_neg (by simp [hopen]), if_neg (by omega)]

theorem deliver_ShutdownCancel (s : State) (data : String) (i : Nat) :
    deliver (ShutdownCancel s) data i = (deliver s data i).map ShutdownCancel := by
  unfold deliver
  have e1 : (ShutdownCancel s).closed = s.closed := rfl
  have e2 : (ShutdownCancel s).inputChan = s.inputChan := rfl
  have e3 : (ShutdownCancel s).goroutines = s.goroutines := rfl
  rw [e1, e2, e3]
  by_cases hc : (s.closed || !s.inputChan.isEmpty) = true
  · rw [if_pos hc, if_pos hc]
    rfl
  · rw [if_neg hc, if_neg hc]
    cases s.goroutines[i]? with
    | none => rfl
    | some g =>
      simp only
      by_cases hpc : g.pc = PC.selecting
      · rw [if_pos hpc, if_pos hpc]
        rfl
      · rw [if_neg hpc, if_neg hpc]
        rfl

theorem SendWorkFallbackDirect_ShutdownCancel (s : State) (k i : Nat) :
    SendWorkFallbackDirect (ShutdownCancel s) k i =
      (SendWorkFallbackDirect s k i).map ShutdownCancel := by
  unfold SendWorkFallbackDirect
  have e1 : (ShutdownCancel s).senders = s.senders := rfl
  rw [e1]
  cases s.senders[k]? with
  | none => rfl
  | some data =>
    simp only
    rw [deliver_ShutdownCancel]
    cases deliver s data i <;> rfl

/-- C10, amended: the blocking send of `SendWork` is not cancellable by the root scope.
Take a call blocked in `wp.inputChan <- data` while the queue is full and open. The
`rootCancel()` of `Shutdown` is a step, after which the root scope is cancelled and the
call is still blocked; the blocked send is enabled neither before nor after it; the
hand-over to a worker that waits in its `select` is enabled after it exactly when it was
before; and whatever step is taken next, the item is still with a blocked call unless
that very step handed it to a worker, which processes it. In every state at all, a
blocked call leaves only by its item entering the queue or going to a worker. -/
theorem SendWork_fallback_not_cancellable (s : State) (k : Nat) (data : String)
    (hk : s.senders[k]? = some data) (hopen : s.closed = false)
    (hfull : s.cap ≤ s.inputChan.length) (hp : s.panicked = false) :
    step s Action.shutdown = some (ShutdownCancel s) ∧
    (ShutdownCancel s).rootDone = true ∧
    (ShutdownCancel s).senders[k]? = some data ∧
    step s (Action.fallback k) = none ∧
    step (ShutdownCancel s) (Action.fallback k) = none ∧
    (∀ i, step (ShutdownCancel s) (Action.fallbackDirect k i) =
      (step s (Action.fallbackDirect k i)).map ShutdownCancel) ∧
    (∀ (a : Action) (t : State), step (ShutdownCancel s) a = some t →
      data ∈ t.senders ∨
      ∃ i g, a = Action.fallbackDirect k i ∧ s.goroutines[i]? = some g ∧
        t.goroutines[i]? = some { g with pc := PC.processing data } ∧
        t.output = s.output ++ [(g.id, data)]) ∧
    (∀ (u t : State) (a : Action), step u a = some t →
      t.senders = u.senders ∨
      (∃ d, a = Action.sendWork d SelectCase.dflt ∧ t.senders = u.senders ++ [d]) ∨
      (∃ j d, a = Action.fallback j ∧ u.senders[j]? = some d ∧
        t.senders = u.senders.eraseIdx j ∧ t.inputChan = u.inputChan ++ [d]) ∨
      (∃ j i d g, a = Action.fallbackDirect j i ∧ u.senders[j]? = some d ∧
        t.senders = u.senders.eraseIdx j ∧ u.goroutines[i]? = some g ∧
        t.goroutines[i]? = some { g with pc := PC.processing d } ∧
        t.output = u.output ++ [(g.id, d)])) := by
  have hnp : ¬ (s.panicked = true) := by simp [hp]
  have hnp2 : ¬ ((ShutdownCancel s).panicked = true) := hnp
  have hmem : data ∈ s.senders := List.mem_iff_getElem?.2 ⟨k, hk⟩
  refine ⟨?_, rfl, hk, ?_, ?_, ?_, ?_, fun u t a h => step_senders u t a h⟩
  · unfold step
    rw [if_neg hnp]
  · unfold step
    rw [if_neg hnp]
    exact SendWorkFallback_full s k hopen hfull
  · unfold step
    rw [if_neg hnp2]
    exact SendWorkFallback_full (ShutdownCancel s) k hopen hfull
  · intro i
    unfold step
    rw [if_neg hnp, if_neg hnp2]
    exact SendWorkFallbackDirect_ShutdownCancel s k i
  · intro a t h
    rcases step_senders (ShutdownCancel s) t a h with h1 | ⟨d, _, h1⟩ |
        ⟨j, d, rfl, _, _, _⟩ | ⟨j, i, d, g, rfl, hj, h1, hg, hg2, ho⟩
    · left
      rw [h1]
      exact hmem
    · left
      rw [h1]
      exact List.mem_append_left _ hmem
    · exfalso
      unfold step at h
      rw [if_neg hnp2] at h
      have := SendWorkFallback_full (ShutdownCancel s) j hopen hfull
      simp only at h
      rw [this] at h
      simp at h
    · by_cases hjk : j = k
      · subst hjk
        have hd : d = data := by
          have hj2 : s.senders[j]? = some d := hj
          rw [hk] at hj2
          exact (Option.some.inj hj2).symm
        subst hd
        exact Or.inr ⟨i, g, rfl, hg, hg2, ho⟩
      · left
        rw [h1]
        exact List.mem_eraseIdx_iff_getElem?.2 ⟨k, fun h2 => hjk h2.symm, hk⟩

/-- Witness of C10: on a pool of capacity 1, "a" fills the queue and `SendWork("b")`
blocks in the `default` branch; the root scope is then cancelled, and the blocked send
is not enabled. -/
theorem SendWork_fallback_not_cancellable_witness :
    (runFrom 1 [Action.sendWork "a" SelectCase.send,
      Action.sendWork "b" SelectCase.dflt]).senders[0]? = some "b" ∧
    step (ShutdownCancel (runFrom 1 [Action.sendWork "a" SelectCase.send,
      Action.sendWork "b" SelectCase.dflt])) (Action.fallback 0) = none :=
  ⟨by decide,
   (SendWork_fallback_not_cancellable
      (runFrom 1 [Action.sendWork "a" SelectCase.send, Action.sendWork "b" SelectCase.dflt])
      0 "b" (by decide) (by decide) (by decide) (by decide)).2.2.2.2.1⟩

theorem step_blocked_sender (s t : State) (a : Action) (hb : s.senders = ["b"])
    (hq : s.inputChan = ["a"]) (hcap : s.cap = 1) (hc : s.closed = false)
    (hr : s.rootDone = true) (hg : s.goroutines = []) (hwg : s.wg = 0)
    (h : step s a = some t) :
    t.senders = ["b"] ∧ t.panicked = false := by
  unfold step at h
  split at h
  · simp at h
  · rename_i hp
    have hp2 : s.panicked = false := by simpa using hp
    cases a with
    | addWorker =>
      simp only at h
      rw [AddWorker_of_room s (by rw [hwg]; decide)] at h
      rw [← Option.some.inj h]
      exact ⟨hb, hp2⟩
    | removeWorker workerID =>
      simp only at h
      rw [← Option.some.inj h]
      unfold RemoveWorker
      cases s.workers.lookup workerID <;> exact ⟨hb, hp2⟩
    | sendWork data pick =>
      simp only at h
      unfold SendWork at h
      cases pick with
      | send => simp [hc, hq, hcap] at h
      | done =>
        simp only at h
        rw [if_pos hr] at h
        rw [← Option.some.inj h]
        exact ⟨hb, hp2⟩
      | dflt => simp [hr] at h
    | sendDirect data i =>
      simp only at h
      unfold deliver at h
      simp [hc, hq] at h
    | fallback k =>
      simp only at h
      unfold SendWorkFallback at h
      cases k <;> simp [hb, hc, hq, hcap] at h
    | fallbackDirect k i =>
      simp only at h
      unfold SendWorkFallbackDirect deliver at h
      simp only [hc, hq] at h
      split at h <;> simp at h
    | shutdown =>
      simp only at h
      rw [← Option.some.inj h]
      exact ⟨hb, hp2⟩
    | shutdownClose j =>
      simp only at h
      unfold ShutdownClose at h
      split at h
      · split at h
        · rename_i hcc
          rw [hc] at hcc
          simp at hcc
        · rw [← Option.some.inj h]
          exact ⟨hb, hp2⟩
      · simp at h
    | shutdownWait j =>
      simp only at h
      unfold ShutdownWait at h
      split at h
      · rw [if_pos hwg] at h
        rw [← Option.some.inj h]
        exact ⟨hb, hp2⟩
      · simp at h
    | worker i pick =>
      simp only at h
      unfold worker at h
      simp [hg] at h

/-- Counterexample of C10: on a pool of capacity 1 with no worker, `SendWork("a")` fills
the queue, `SendWork("b")` finds it full while the pool is open and blocks in the
`default` branch, and `Shutdown` cancels the root scope. In that state the blocked send
is not enabled, there is no worker to take the item, and whatever step is taken next,
"b" is still blocked: no step ends the call. Once `Shutdown` goes on to close the
channel, the blocked send panics. -/
theorem SendWork_fallback_counterexample :
    (run (emptyPool 1) [Action.sendWork "a" SelectCase.send,
      Action.sendWork "b" SelectCase.dflt, Action.shutdown]).isSome = true ∧
    (runFrom 1 [Action.sendWork "a" SelectCase.send, Action.sendWork "b" SelectCase.dflt,
      Action.shutdown]).rootDone = true ∧
    (runFrom 1 [Action.sendWork "a" SelectCase.send, Action.sendWork "b" SelectCase.dflt,
      Action.shutdown]).senders = ["b"] ∧
    SendWorkFallback (runFrom 1 [Action.sendWork "a" SelectCase.send,
      Action.sendWork "b" SelectCase.dflt, Action.shutdown]) 0 = none ∧
    (∀ (a : Action) (t : State),
      step (runFrom 1 [Action.sendWork "a" SelectCase.send,
        Action.sendWork "b" SelectCase.dflt, Action.shutdown]) a = some t →
      t.senders = ["b"] ∧ t.panicked = false) ∧
    (run (emptyPool 1) [Action.sendWork "a" SelectCase.send,
      Action.sendWork "b" SelectCase.dflt, Action.shutdown, Action.shutdownClose 0,
      Action.fallback 0]).map (fun t => t.panicked) = some true :=
  ⟨by decide, by decide, by decide, by decide,
   fun a t h => step_blocked_sender _ t a (by decide) (by decide) (by decide) (by decide)
     (by decide) (by decide) (by decide) h,
   by decide⟩

end WorkerPool
